import Mathlib

/-!
Verification development for the exam-room assignment system
(`exam_room_app`): a shallow embedding of the core modules
`name_processor.py`, `exam_assigner.py` and `checkpoint_manager.py`,
followed by theorems settling the specification claims.

Modelling conventions:
* pandas DataFrames become `List` of record structures; row order is the
  list order.  `df.sort_values(by=[k1,k2])` on several columns is numpy's
  `lexsort`, a stable sort, modelled by `List.insertionSort` (stable).
* Python `dict`s become association lists with unique keys maintained by
  an insert-or-replace operation; iteration order never matters for the
  results modelled here (only `max`-folds and per-key lookups).
* Python `int` becomes `Int` where checkpoint data may carry arbitrary
  integers, `Nat` where the source only ever produces non-negative values
  (running numbers: the dict of highest ids is built with
  `max(d.get(p, 0), n)`, so its entries are always `>= 0` and clamping
  negative parses to `0` is value-preserving).
* exceptions become `Option`/branching: a caught exception leaves the
  data unchanged, exactly as the source's `except: continue` blocks do.
-/

namespace ExamRoom

/-- Decimal digit character for `n < 10`. -/
def digitChar (n : Nat) : Char := Char.ofNat (48 + n)

/-- Decimal digits with explicit fuel (structural recursion, so that
the kernel can evaluate it); correct whenever `n < fuel`. -/
def natDigitsAux : Nat → Nat → List Char
  | 0, _ => []
  | fuel + 1, n =>
    if n < 10 then [digitChar n]
    else natDigitsAux fuel (n / 10) ++ [digitChar (n % 10)]

/-- Decimal digits of a natural number, most significant first.
Models Python `str(n)` for non-negative `n`. -/
def natDigits (n : Nat) : List Char := natDigitsAux (n + 1) n

/-- Python `str(n)` for a natural number. -/
def natStr (n : Nat) : String := String.mk (natDigits n)

/-- Numeric value of a digit list (horner fold, as read left to right). -/
def digitsVal (ds : List Char) : Nat :=
  ds.foldl (fun acc c => acc * 10 + (c.toNat - 48)) 0

/-- Python `int(s)`: optional sign followed by decimal digits.
(The source only ever parses exam-id suffixes; whitespace/underscore
forms of Python's grammar do not occur there and are not modelled.) -/
def pyParseInt (s : String) : Option Int :=
  match s.data with
  | [] => none
  | c :: cs =>
    if c = '-' then
      if cs ≠ [] ∧ cs.all Char.isDigit then some (-(Int.ofNat (digitsVal cs))) else none
    else if c = '+' then
      if cs ≠ [] ∧ cs.all Char.isDigit then some (Int.ofNat (digitsVal cs)) else none
    else if (c :: cs).all Char.isDigit then some (Int.ofNat (digitsVal (c :: cs))) else none

/-- Python `s.zfill(3)` for the digit strings produced by `natStr`. -/
def zfill3 (s : String) : String :=
  if s.data.length ≥ 3 then s
  else String.mk (List.replicate (3 - s.data.length) '0' ++ s.data)

/-- Python `s.startswith(p)` (code-point level). -/
def strStartsWith (s p : String) : Bool := p.data.isPrefixOf s.data

/-- Python `s[n:]` (code-point level). -/
def strDrop (s : String) (n : Nat) : String := String.mk (s.data.drop n)

/-- Python `len(s)` (code points). -/
def strLen (s : String) : Nat := s.data.length

/-- First-match association-list lookup; models a Python `dict` whose
keys are unique. -/
def lookupA {κ β : Type} [DecidableEq κ] : List (κ × β) → κ → Option β
  | [], _ => none
  | e :: t, k => if e.1 = k then some e.2 else lookupA t k

/-- Insert-or-replace for association lists: models Python
`d[k] = v` (value of an existing key is replaced in place). -/
def insertA {κ β : Type} [DecidableEq κ] : List (κ × β) → κ → β → List (κ × β)
  | [], k, v => [(k, v)]
  | e :: t, k, v => if e.1 = k then (k, v) :: t else e :: insertA t k v

/-- Distinct values of a list in order of first appearance: models
pandas `Series.unique()`. -/
def uniqueFirst : List String → List String
  | [] => []
  | x :: xs => x :: (uniqueFirst xs).filter (fun y => y ≠ x)

/-! ### `name_processor.py` -/

/-- Thai leading vowels skipped when sorting
(`NameProcessor.thai_leading_vowels`). -/
def thaiLeadingVowels : List Char := ['เ', 'แ', 'โ', 'ใ', 'ไ']

/-- `NameProcessor.get_thai_sort_key` (name_processor.py lines 92-114):
empty or 1-character strings and strings not starting with a leading
vowel are returned unchanged; otherwise the first two characters are
swapped. -/
def get_thai_sort_key (name : String) : String :=
  match name.data with
  | [] => name
  | [_] => name
  | a :: b :: rest =>
    if a ∈ thaiLeadingVowels then String.mk (b :: a :: rest) else name

/-! ### Data model -/

/-- One input applicant record (the columns of the input DataFrame that
`ExamAssigner` reads). -/
structure Student where
  thaiID : String
  program : String
  firstname : String
  lastname : String
deriving DecidableEq, Repr

/-- One row of the working DataFrame inside `assign_exam_details`:
the student columns plus the assignment columns the method creates. -/
structure Row where
  thaiID : String
  program : String
  firstname : String
  lastname : String
  runningNumber : Nat
  exam_id : String
  exam_room : String
  exam_no : Int
  exam_building : String
  exam_floor : String
deriving DecidableEq, Repr

/-- A checkpoint value: the per-student dict built by
`CheckpointManager._process_checkpoint_data`. -/
structure SeatAssignment where
  exam_id : String
  exam_room : String
  exam_no : Int
  exam_building : String
  exam_floor : String
deriving DecidableEq, Repr

/-- The checkpoint dict: `(thaiID, program)` keys to seat assignments. -/
abbrev Checkpoint : Type := List ((String × String) × SeatAssignment)

/-- The static configuration injected into `ExamAssigner.__init__`:
`EXAM_ROOMS`, `ROOM_METADATA` (room to (building, floor)) and
`EXAM_ID_PREFIX` from `ExamRoomConfig`. -/
structure Config where
  exam_rooms : List (String × List (String × Int))
  room_metadata : List (String × (String × String))
  idPrefixes : List (String × String)

/-- The sentinel "unspecified" building/floor string. -/
def UNSPEC : String := "ไม่ระบุ"

/-! ### `exam_assigner.py` -/

/-- Sort key of a row: `(firstname_sort_key, lastname_sort_key)`
(exam_assigner.py lines 98-99). -/
def rowKey (r : Row) : String × String :=
  (get_thai_sort_key r.firstname, get_thai_sort_key r.lastname)

/-- Strict code-point lexicographic comparison of character lists: the
order Python uses to compare strings (and numpy's `lexsort` uses per
column). -/
def charListLt : List Char → List Char → Bool
  | [], [] => false
  | [], _ :: _ => true
  | _ :: _, [] => false
  | a :: as, b :: bs =>
    if a.toNat < b.toNat then true
    else if b.toNat < a.toNat then false
    else charListLt as bs

/-- Strict string comparison (code points). -/
def strLt (s t : String) : Bool := charListLt s.data t.data

/-- Non-strict string comparison (code points). -/
def strLe (s t : String) : Bool := ! strLt t s

/-- Lexicographic comparison of sort-key pairs, as numpy's `lexsort`
orders them. -/
def keyLe (x y : String × String) : Prop :=
  strLt x.1 y.1 = true ∨ (x.1 = y.1 ∧ strLe x.2 y.2 = true)

instance : DecidableRel keyLe := fun x y => by
  unfold keyLe; infer_instance

/-- Row comparison used by the stable sort in
`df.sort_values(by=["firstname_sort_key", "lastname_sort_key"])`. -/
def rowLe (a b : Row) : Prop := keyLe (rowKey a) (rowKey b)

instance : DecidableRel rowLe := fun a b => by
  unfold rowLe; infer_instance

/-- A fresh working row for an input record: `running_number` starts at
0 (line 110); the assignment columns do not exist yet in the source
DataFrame, and every row later receives them either from the
new-student initialization or from the checkpoint, so their initial
values are never observable. -/
def initRow (s : Student) : Row :=
  { thaiID := s.thaiID, program := s.program, firstname := s.firstname,
    lastname := s.lastname, runningNumber := 0, exam_id := "",
    exam_room := "", exam_no := 0, exam_building := UNSPEC,
    exam_floor := UNSPEC }

/-- `ExamAssigner._get_highest_exam_id_by_program`, read at one program:
fold over the checkpoint; entries of this program whose `exam_id`
starts with the configured prefix and whose remaining characters parse
as an integer contribute to the running maximum.  The Python dict entry
is built as `max(d.get(p, 0), n)`, hence never negative; clamping with
`Int.toNat` is therefore value-preserving. -/
def hstep (cfg : Config) (p : String) (acc : Nat)
    (e : (String × String) × SeatAssignment) : Nat :=
  if e.1.2 = p then
    match lookupA cfg.idPrefixes p with
    | some pre =>
      if strStartsWith e.2.exam_id pre then
        match pyParseInt (strDrop e.2.exam_id (strLen pre)) with
        | some n => max acc n.toNat
        | none => acc
      else acc
    | none => acc
  else acc

def highestExamId (cfg : Config) (chk : Checkpoint) (p : String) : Nat :=
  chk.foldl (hstep cfg p) 0

/-- A student is "new" when the key `(thaiID, program)` is absent from
the checkpoint dict (`students_with_exam_ids`, lines 104-133). -/
def isNewRow (chk : Checkpoint) (r : Row) : Bool :=
  (lookupA chk (r.thaiID, r.program)).isNone

/-- Pointwise update of a per-program counter. -/
def bumpCount (cnt : String → Nat) (p : String) (n : Nat) : String → Nat :=
  fun q => if q = p then n else cnt q

/-- Positional assignment of running numbers (lines 113-144): walking
the sorted frame, the i-th new student of program `p` receives
`highest(p) + i`; students already in the checkpoint keep 0.
`cnt` counts the new students of each program seen so far. -/
def assignRunningAux (chk : Checkpoint) (highest : String → Nat) :
    (String → Nat) → List Row → List Row
  | _, [] => []
  | cnt, r :: rs =>
    if isNewRow chk r then
      let n := cnt r.program + 1
      { r with runningNumber := highest r.program + n } ::
        assignRunningAux chk highest (bumpCount cnt r.program n) rs
    else
      r :: assignRunningAux chk highest cnt rs

/-- Exam-id generation and new-student column initialization
(lines 146-159): students with a positive running number receive
`prefix.get(program, "") + str(n).zfill(3)` and empty room/seat
columns. -/
def genIds (cfg : Config) (r : Row) : Row :=
  if r.runningNumber > 0 then
    { r with
      exam_id := (match lookupA cfg.idPrefixes r.program with
                  | some pre => pre
                  | none => "") ++ zfill3 (natStr r.runningNumber),
      exam_room := "", exam_no := 0,
      exam_building := UNSPEC, exam_floor := UNSPEC }
  else r

/-- Checkpoint application (lines 161-186): every row whose key is in
the checkpoint has all five stored fields copied over. -/
def applyChk (chk : Checkpoint) (r : Row) : Row :=
  match lookupA chk (r.thaiID, r.program) with
  | some a =>
    { r with
      exam_id := a.exam_id, exam_room := a.exam_room,
      exam_no := a.exam_no, exam_building := a.exam_building,
      exam_floor := a.exam_floor }
  | none => r

/-- `ExamAssigner._get_room_occupancy` followed by the `max` step, read
at one room: the seat numbers recorded in the checkpoint for this
program and room (entries with a non-empty room only). -/
def roomSeats (chk : Checkpoint) (p room : String) : List Int :=
  chk.filterMap (fun e =>
    if e.1.2 = p ∧ e.2.exam_room ≠ "" ∧ e.2.exam_room = room then
      some e.2.exam_no
    else none)

/-- `room_highest_exam_no.get(room, 0)` (lines 228-231, 245): the
maximum recorded seat number, 0 when the room has no entries.  (The
Python `max` of a non-empty list is taken as is, so a checkpoint of
negative seat numbers yields a negative maximum; the default 0 applies
only to absent rooms.) -/
def roomHighest (chk : Checkpoint) (p room : String) : Int :=
  match roomSeats chk p room with
  | [] => 0
  | x :: xs => xs.foldl max x

/-- The room/seat pairs produced by the room-filling loop
(lines 240-260): walk the program's room plan in order, skip rooms
whose remaining capacity is `<= 0`, and take
`min(remaining, needed)` students per room with seat numbers
continuing from the highest recorded one. -/
def buildRoomSeats (chk : Checkpoint) (p : String) :
    List (String × Int) → Nat → List (String × Int)
  | [], _ => []
  | _, 0 => []
  | (room, cap) :: rest, needed =>
    let h := roomHighest chk p room
    let rem : Int := cap - h
    if rem ≤ 0 then buildRoomSeats chk p rest needed
    else
      let take := min rem.toNat needed
      ((List.range take).map (fun i => (room, h + 1 + Int.ofNat i))) ++
        buildRoomSeats chk p rest (needed - take)

/-- Building/floor lookup with the "unspecified" fallback
(lines 269-278). -/
def metaLookup (cfg : Config) (room : String) : String × String :=
  match lookupA cfg.room_metadata room with
  | some bf => bf
  | none => (UNSPEC, UNSPEC)

/-- Distribution of the produced room/seat pairs onto the unassigned
rows of the program, in frame order (lines 262-278): only rows of this
program with an empty room are touched. -/
def applySeats (cfg : Config) (p : String) :
    List Row → List (String × Int) → List Row
  | [], _ => []
  | rs, [] => rs
  | r :: rs, (room, no) :: tl =>
    if r.program = p ∧ r.exam_room = "" then
      { r with
        exam_room := room, exam_no := no,
        exam_building := (metaLookup cfg room).1,
        exam_floor := (metaLookup cfg room).2 } ::
          applySeats cfg p rs tl
    else r :: applySeats cfg p rs ((room, no) :: tl)

/-- One iteration of the per-program loop of
`ExamAssigner._assign_rooms_by_program` (lines 204-284).  A program
with no unassigned rows, or absent from `EXAM_ROOMS`, is skipped.  When
the loop produces fewer room/seat pairs than there are unassigned rows
(total remaining capacity short), the bulk assignment
`df.loc[indices, col] = values` raises a pandas length-mismatch
`ValueError` before mutating the frame; the surrounding
`except ... continue` catches it, so the program's rows are left
unchanged. -/
def passProgram (cfg : Config) (chk : Checkpoint) (rows : List Row)
    (p : String) : List Row :=
  let n := (rows.filter (fun r => r.program = p ∧ r.exam_room = "")).length
  if n = 0 then rows
  else
    match lookupA cfg.exam_rooms p with
    | none => rows
    | some plan =>
      let pairs := buildRoomSeats chk p plan n
      if pairs.length = n then applySeats cfg p rows pairs else rows

/-- `ExamAssigner._assign_rooms_by_program`: the per-program loop over
`df["program"].unique()`. -/
def assignRoomsByProgram (cfg : Config) (chk : Checkpoint)
    (rows : List Row) : List Row :=
  (uniqueFirst (rows.map (fun r => r.program))).foldl
    (passProgram cfg chk) rows

/-- `ExamAssigner.assign_exam_details` (lines 74-194): stable sort by
the Thai collation keys, running-number assignment continuing from the
checkpoint's highest ids, exam-id generation, checkpoint application,
and per-program room assignment. -/
def assign_exam_details (cfg : Config) (chk : Checkpoint)
    (students : List Student) : List Row :=
  let sorted := List.insertionSort rowLe (students.map initRow)
  let numbered :=
    assignRunningAux chk (highestExamId cfg chk) (fun _ => 0) sorted
  let withIds := numbered.map (genIds cfg)
  let applied := withIds.map (applyChk chk)
  assignRoomsByProgram cfg chk applied

/-- The working frame as it stands after checkpoint application
(line 186), right before the per-program room loop: the first four
stages of `assign_exam_details` spelled out. -/
def appliedRows (cfg : Config) (chk : Checkpoint)
    (students : List Student) : List Row :=
  ((assignRunningAux chk (highestExamId cfg chk) (fun _ => 0)
      (List.insertionSort rowLe (students.map initRow))).map
    (genIds cfg)).map (applyChk chk)

/-! ### `checkpoint_manager.py` -/

/-- One row of a checkpoint CSV file, carrying the seven checkpoint
columns (`CheckpointManager.CHECKPOINT_COLUMNS`). -/
structure CkRow where
  thaiID : String
  program : String
  exam_id : String
  exam_room : String
  exam_no : Int
  exam_building : String
  exam_floor : String
deriving DecidableEq, Repr

/-- `CheckpointManager.REQUIRED_COLUMNS`. -/
def REQUIRED_COLUMNS : List String :=
  ["thaiID", "program", "exam_id", "exam_room", "exam_no"]

/-- `CheckpointManager.CHECKPOINT_COLUMNS`. -/
def CHECKPOINT_COLUMNS : List String :=
  ["thaiID", "program", "exam_id", "exam_room", "exam_no",
   "exam_building", "exam_floor"]

/-- The contents of one file on disk, as far as the checkpoint manager
can observe them: either a table that `pd.read_csv` parses, with its
header columns, or a file on which reading/processing raises
(malformed CSV, unparsable `exam_no`, ...). -/
inductive FileData where
  | table (cols : List String) (rows : List CkRow)
  | corrupt
deriving DecidableEq, Repr

/-- The file system seen through `os.path.exists`/`read_csv`/`to_csv`:
paths mapped to contents. -/
abbrev FS : Type := List (String × FileData)

/-- Write (create or overwrite) a file. -/
def fsWrite (fs : FS) (path : String) (d : FileData) : FS :=
  insertA fs path d

/-- The missing-column test used by both validators: Python computes
`[col for col in required if col not in df.columns]` and fails when it
is non-empty. -/
def hasCols (required cols : List String) : Bool :=
  required.all (fun c => c ∈ cols)

/-- `CheckpointManager._process_checkpoint_data`: build the dict keyed
by `(str(thaiID), str(program))`; a repeated key keeps the last row.
`exam_building`/`exam_floor` default to the sentinel when the column is
absent (`row.get(col, default)`). -/
def processCheckpointData (cols : List String) (rows : List CkRow) :
    Checkpoint :=
  rows.foldl (fun d row =>
    insertA d (row.thaiID, row.program)
      { exam_id := row.exam_id, exam_room := row.exam_room,
        exam_no := row.exam_no,
        exam_building :=
          if "exam_building" ∈ cols then row.exam_building else UNSPEC,
        exam_floor :=
          if "exam_floor" ∈ cols then row.exam_floor else UNSPEC }) []

/-- `CheckpointManager._load_from_backup` (lines 104-133): read
`<path>.bak`; absent, corrupt, or column-deficient backups yield the
empty dict. -/
def loadFromBackup (fs : FS) (path : String) : Checkpoint :=
  match lookupA fs (path ++ ".bak") with
  | none => []
  | some FileData.corrupt => []
  | some (FileData.table cols rows) =>
    if hasCols REQUIRED_COLUMNS cols then processCheckpointData cols rows
    else []

/-- `CheckpointManager.load_checkpoint` (lines 17-45): empty path or
absent file yield the empty dict; a readable file missing required
columns yields the empty dict (the early `return` inside the `try`, so
no backup is consulted); only a raising read/process falls back to the
backup. -/
def load_checkpoint (fs : FS) (path : String) : Checkpoint :=
  if path = "" then []
  else
    match lookupA fs path with
    | none => []
    | some FileData.corrupt => loadFromBackup fs path
    | some (FileData.table cols rows) =>
      if hasCols REQUIRED_COLUMNS cols then processCheckpointData cols rows
      else []

/-- The string normalization of `_normalize_dataframe_types`: after
`astype(str)`, cells that print as `'nan'` are replaced by `''`. -/
def denan (s : String) : String := if s = "nan" then "" else s

/-- `CheckpointManager._normalize_dataframe_types` on one row (the
`exam_no` column is already integral in this model, so only the string
columns change). -/
def normalizeCk (r : CkRow) : CkRow :=
  { r with
    thaiID := denan r.thaiID, program := denan r.program,
    exam_id := denan r.exam_id, exam_room := denan r.exam_room,
    exam_building := denan r.exam_building,
    exam_floor := denan r.exam_floor }

/-- The composite merge key of `_create_composite_key`:
`thaiID + '_' + program`. -/
def concatKey (r : CkRow) : String := r.thaiID ++ "_" ++ r.program

/-- The `(thaiID, program)` pair key of a checkpoint row. -/
def pairKey (r : CkRow) : String × String := (r.thaiID, r.program)

/-- `CheckpointManager._update_existing_checkpoint` (lines 255-290),
its pure merge part: normalize both tables, drop every existing row
whose composite key occurs in the incoming batch, and append the
incoming batch. -/
def updateExistingCheckpoint (existing current : List CkRow) :
    List CkRow :=
  let e := existing.map normalizeCk
  let c := current.map normalizeCk
  let ckeys := c.map concatKey
  e.filter (fun r => ¬ concatKey r ∈ ckeys) ++ c

/-- First row of a table with the given pair key (dict-like lookup used
to state merge correctness). -/
def lookupRow (rows : List CkRow) (k : String × String) : Option CkRow :=
  rows.find? (fun r => pairKey r = k)

/-- `CheckpointManager.save_checkpoint` (lines 135-165) acting on the
file system; the result is the returned boolean and the new file
system.  An empty path returns `False` before touching anything; a
frame missing checkpoint columns raises `ValueError` inside the `try`
(`_validate_dataframe_columns`), caught before any read, backup, or
write.  Updating an existing file reads it (a raising read is caught:
`False`, nothing written — the backup copy happens only after the merge
is computed), backs the old contents up to `<path>.bak`, and writes the
merged table.  An existing table without `thaiID`/`program` columns
makes `_create_composite_key` raise `KeyError`, likewise caught before
the backup. -/
def save_checkpoint (fs : FS) (cols : List String) (rows : List CkRow)
    (path : String) : Bool × FS :=
  if path = "" then (false, fs)
  else if ¬ hasCols CHECKPOINT_COLUMNS cols then (false, fs)
  else
    match lookupA fs path with
    | none =>
      (true, fsWrite fs path
        (FileData.table CHECKPOINT_COLUMNS (rows.map normalizeCk)))
    | some FileData.corrupt => (false, fs)
    | some (FileData.table ecols erows) =>
      if "thaiID" ∈ ecols ∧ "program" ∈ ecols then
        let merged := updateExistingCheckpoint erows rows
        let fs1 := fsWrite fs (path ++ ".bak") (FileData.table ecols erows)
        (true, fsWrite fs1 path (FileData.table CHECKPOINT_COLUMNS merged))
      else (false, fs)

/-- Prefix lookup with the `dict.get(program, "")` default used by the
exam-id generation. -/
def prefixD (cfg : Config) (p : String) : String :=
  match lookupA cfg.idPrefixes p with
  | some pre => pre
  | none => ""

/-- The `(thaiID, program)` key of a working row. -/
def rowPKey (r : Row) : String × String := (r.thaiID, r.program)

/-- The `(thaiID, program)` key of an input record. -/
def studKey (s : Student) : String × String := (s.thaiID, s.program)

/-! Pointwise relations describing what the room-assignment stage can
do to a row; used to transport facts through `assignRoomsByProgram`. -/

/-- The fields that room assignment never changes. -/
def idFieldsEq (r r' : Row) : Prop :=
  r'.thaiID = r.thaiID ∧ r'.program = r.program ∧
  r'.firstname = r.firstname ∧ r'.lastname = r.lastname ∧
  r'.runningNumber = r.runningNumber ∧ r'.exam_id = r.exam_id

/-- Pointwise effect of one `passProgram` for program `q`: id fields
kept, and rows that already have a room, or belong to another program,
are untouched. -/
def SRel (q : String) (r r' : Row) : Prop :=
  idFieldsEq r r' ∧ (r.exam_room ≠ "" → r' = r) ∧ (r.program ≠ q → r' = r)

/-- Pointwise effect of the whole room-assignment stage. -/
def TRel (r r' : Row) : Prop :=
  idFieldsEq r r' ∧ (r.exam_room ≠ "" → r' = r)

/-- `TRel` strengthened for a program `p` whose pass is a no-op. -/
def TRelP (p : String) (r r' : Row) : Prop :=
  TRel r r' ∧ (r.program = p → r' = r)

/-- Everything except the running number agrees (pointwise effect of
the running-number stage). -/
def runRel (r r' : Row) : Prop :=
  r' = { r with runningNumber := r'.runningNumber }

/-! ### Concrete instances used by witnesses and counterexamples -/

/-- Test configuration of `test_thai_sort.py::test_assign_exam_details_sorting`:
one program, one room of capacity 10, prefix "99". -/
def cfgT : Config :=
  { exam_rooms := [("test-program", [("TestRoom", 10)])],
    room_metadata := [("TestRoom", ("Test Building", "1"))],
    idPrefixes := [("test-program", "99")] }

/-- The three applicants of the spec's scenario. -/
def studsT : List Student :=
  [⟨"1111111111111", "test-program", "เมธา", "สุข"⟩,
   ⟨"2222222222222", "test-program", "กมล", "จันทร์"⟩,
   ⟨"3333333333333", "test-program", "แสง", "ไพศาล"⟩]

/-- A checkpoint holding one entry whose stored room is empty (an
overflow record persisted by an earlier run). -/
def chkEmptyRoom : Checkpoint :=
  [(("1", "test-program"),
    { exam_id := "99001", exam_room := "", exam_no := 0,
      exam_building := UNSPEC, exam_floor := UNSPEC })]

/-- The single input record matching `chkEmptyRoom`'s key. -/
def studEmptyRoom : List Student := [⟨"1", "test-program", "ก", "ข"⟩]

/-- A checkpoint holding one fully seated entry. -/
def chkW : Checkpoint :=
  [(("1", "test-program"), ⟨"99001", "TestRoom", 1, "B", "F"⟩)]

/-- The single input record matching `chkW`'s key. -/
def studsW : List Student := [⟨"1", "test-program", "x", "y"⟩]

/-- The row `assign_exam_details cfgT chkW studsW` produces. -/
def rowW : Row :=
  ⟨"1", "test-program", "x", "y", 0, "99001", "TestRoom", 1, "B", "F"⟩

/-- Capacity-2 variant of the test configuration. -/
def cfgOver : Config :=
  { exam_rooms := [("test-program", [("TestRoom", 2)])],
    room_metadata := [("TestRoom", ("Test Building", "1"))],
    idPrefixes := [("test-program", "99")] }

/-- Three applicants with plain names (already in sorted order). -/
def studsABC : List Student :=
  [⟨"1", "test-program", "a", "x"⟩,
   ⟨"2", "test-program", "b", "y"⟩,
   ⟨"3", "test-program", "c", "z"⟩]

/-- Configuration whose program "px" has a room plan but no id-prefix
entry. -/
def cfgNoPre : Config :=
  { exam_rooms := [("px", [("R", 5)])], room_metadata := [],
    idPrefixes := [] }

/-- One applicant in the prefix-less program "px". -/
def studNoPre : List Student := [⟨"9", "px", "a", "b"⟩]

/-- Configuration where program "px" has an id-prefix entry but no room
plan, while program "q" is fully configured. -/
def cfgOnlyQ : Config :=
  { exam_rooms := [("q", [("R", 3)])], room_metadata := [],
    idPrefixes := [("px", "55"), ("q", "66")] }

/-- One applicant in the plan-less program "px" and one in "q". -/
def studsPQ : List Student :=
  [⟨"1", "px", "a", "b"⟩, ⟨"2", "q", "c", "d"⟩]

/-- The output row for the plan-less program's applicant. -/
def rowPx : Row := ⟨"1", "px", "a", "b", 1, "55001", "", 0, UNSPEC, UNSPEC⟩

/-- Two applicants with identical names (identical sort keys) and
distinct ids. -/
def studTieA : Student := ⟨"1", "p", "same", "same"⟩

/-- Second applicant of the tied pair. -/
def studTieB : Student := ⟨"2", "p", "same", "same"⟩

/-- Configuration for the tied pair. -/
def cfgTie : Config :=
  { exam_rooms := [("p", [("R", 5)])], room_metadata := [],
    idPrefixes := [("p", "77")] }

/-- A checkpoint whose one entry for "test-program" carries exam id
"99005" (suffix 5) and seat 5. -/
def chkC6 : Checkpoint :=
  [(("9", "test-program"), ⟨"99005", "TestRoom", 5, "B", "F"⟩)]

/-- One new applicant against `chkC6`. -/
def studC6 : List Student := [⟨"1", "test-program", "a", "b"⟩]

/-- The row `assign_exam_details cfgT chkC6 studC6` produces for the
new applicant: running number 6, exam id "99006", seat 6. -/
def rowC6 : Row :=
  ⟨"1", "test-program", "a", "b", 6, "99006", "TestRoom", 6,
    "Test Building", "1"⟩

/-- Two applicants with distinct sort keys. -/
def studDistA : Student := ⟨"1", "p", "a", "x"⟩

/-- Second applicant of the distinct-key pair. -/
def studDistB : Student := ⟨"2", "p", "b", "y"⟩

/-- A file system whose checkpoint file is readable but lacks the
`exam_no` column, while its backup is fully valid and non-empty. -/
def fsBadCols : FS :=
  [("cp.csv", FileData.table ["thaiID", "program", "exam_id", "exam_room"] []),
   ("cp.csv.bak", FileData.table CHECKPOINT_COLUMNS
      [⟨"1", "p", "99001", "R", 1, "B", "F"⟩])]

/-- Store row whose program contains an underscore. -/
def sRowU : CkRow := ⟨"a", "b_c", "E1", "R1", 1, "B1", "F1"⟩

/-- Batch row whose thaiID contains an underscore; its composite key
collides with `sRowU`'s. -/
def bRowU : CkRow := ⟨"a_b", "c", "E2", "R2", 2, "B2", "F2"⟩

/-- Configuration for the capacity-bound run: one program "P" with a
single room "R" of capacity 2. -/
def cfgC7 : Config :=
  { exam_rooms := [("P", [("R", 2)])],
    room_metadata := [("R", ("B", "1"))],
    idPrefixes := [("P", "70")] }

/-- Three applicants of program "P": one more than room "R" holds. -/
def studsC7 : List Student :=
  [⟨"1", "P", "a", "b"⟩, ⟨"2", "P", "c", "d"⟩, ⟨"3", "P", "e", "f"⟩]

/-!
## Theorems

General-purpose lemmas first, then one theorem per claim (with its
witness or counterexample).
-/

theorem lookupA_mem {κ β : Type} [DecidableEq κ] {l : List (κ × β)}
    {k : κ} {v : β} (h : lookupA l k = some v) : (k, v) ∈ l := by
  induction l with
  | nil => simp [lookupA] at h
  | cons e t ih =>
    obtain ⟨a, b⟩ := e
    by_cases he : a = k
    · simp [lookupA, he] at h
      subst he
      subst h
      exact List.mem_cons_self _ _
    · simp [lookupA, he] at h
      exact List.mem_cons_of_mem _ (ih h)

/-! ### C8: collation key -/

/-- C8: the collation key function is total and deterministic (it is a
Lean function); strings of fewer than two characters, and strings whose
first character is not a leading vowel, are returned unchanged; a
string of length at least two starting with a leading vowel is
reordered to second character, first character, remainder; with the
four concrete values of the claim. -/
theorem C8_collation_key :
    (∀ s : String, strLen s < 2 → get_thai_sort_key s = s) ∧
    (∀ a b : Char, ∀ rest : List Char, a ∉ thaiLeadingVowels →
      get_thai_sort_key (String.mk (a :: b :: rest)) = String.mk (a :: b :: rest)) ∧
    (∀ a b : Char, ∀ rest : List Char, a ∈ thaiLeadingVowels →
      get_thai_sort_key (String.mk (a :: b :: rest)) = String.mk (b :: a :: rest)) ∧
    get_thai_sort_key "เมธา" = "มเธา" ∧
    get_thai_sort_key "แสง" = "สแง" ∧
    get_thai_sort_key "กมล" = "กมล" ∧
    get_thai_sort_key "" = "" := by
  refine ⟨?_, ?_, ?_, by decide, by decide, by decide, by decide⟩
  · intro s h
    cases s with
    | mk l =>
      match l with
      | [] => rfl
      | [_] => rfl
      | a :: b :: rest =>
        simp [strLen] at h
        omega
  · intro a b rest h
    simp [get_thai_sort_key, h]
  · intro a b rest h
    simp [get_thai_sort_key, h]

/-- Witness for C8: the general clauses applied at concrete inputs. -/
theorem C8_collation_key_witness :
    get_thai_sort_key "ก" = "ก" ∧
    get_thai_sort_key (String.mk ['ก', 'ข']) = String.mk ['ก', 'ข'] ∧
    get_thai_sort_key (String.mk ['เ', 'ก', 'ข']) = String.mk ['ก', 'เ', 'ข'] :=
  ⟨C8_collation_key.1 "ก" (by decide),
   C8_collation_key.2.1 'ก' 'ข' [] (by decide),
   C8_collation_key.2.2.1 'เ' 'ก' ['ข'] (by decide)⟩

/-! ### C5: checkpoint load fallback -/

/-- C5 counterexample: the checkpoint file exists and is readable but
is missing required columns, and a fully valid non-empty backup
`<path>.bak` sits next to it; `load_checkpoint` returns the empty
mapping without consulting the backup, contradicting the claim that
the backup is attempted in the missing-column case. -/
theorem C5_counterexample :
    load_checkpoint fsBadCols "cp.csv" = [] ∧
    loadFromBackup fsBadCols "cp.csv" =
      [(("1", "p"), ⟨"99001", "R", 1, "B", "F"⟩)] := by
  constructor <;> decide

/-- C5 amended: a non-existent path loads as the empty mapping; a
readable file missing required columns loads as the empty mapping
*without* consulting the backup (whatever the backup holds); the
backup is consulted exactly when reading/processing the primary file
raises, and an absent or corrupt backup yields the empty mapping.
`load_checkpoint` is a total function, so it never raises. -/
theorem C5_load_fallback :
    (∀ fs : FS, ∀ path, lookupA fs path = none →
      load_checkpoint fs path = []) ∧
    (∀ fs : FS, ∀ path cols rows, path ≠ "" →
      lookupA fs path = some (FileData.table cols rows) →
      hasCols REQUIRED_COLUMNS cols = false →
      load_checkpoint fs path = []) ∧
    (∀ fs : FS, ∀ path, path ≠ "" →
      lookupA fs path = some FileData.corrupt →
      load_checkpoint fs path = loadFromBackup fs path) ∧
    (∀ fs : FS, ∀ path, lookupA fs (path ++ ".bak") = none →
      loadFromBackup fs path = []) ∧
    (∀ fs : FS, ∀ path, lookupA fs (path ++ ".bak") = some FileData.corrupt →
      loadFromBackup fs path = []) := by
  refine ⟨?_, ?_, ?_, ?_, ?_⟩
  · intro fs path h
    unfold load_checkpoint
    by_cases hp : path = "" <;> simp [hp, h]
  · intro fs path cols rows hp h hc
    unfold load_checkpoint
    simp [hp, h, hc]
  · intro fs path hp h
    unfold load_checkpoint
    simp [hp, h]
  · intro fs path h
    unfold loadFromBackup
    simp [h]
  · intro fs path h
    unfold loadFromBackup
    simp [h]

/-- Witness for C5 amended: each clause at a concrete file system. -/
theorem C5_load_fallback_witness :
    load_checkpoint fsBadCols "nofile.csv" = [] ∧
    load_checkpoint fsBadCols "cp.csv" = [] ∧
    loadFromBackup fsBadCols "other.csv" = [] :=
  ⟨C5_load_fallback.1 fsBadCols "nofile.csv" (by decide),
   C5_load_fallback.2.1 fsBadCols "cp.csv"
     ["thaiID", "program", "exam_id", "exam_room"] [] (by decide)
     (by decide) (by decide),
   C5_load_fallback.2.2.2.1 fsBadCols "other.csv" (by decide)⟩

/-! ### C10: save validation -/

/-- C10: `save_checkpoint` called with an empty path, or with a frame
missing any checkpoint column, returns `False` and leaves the file
system (the checkpoint file and its `.bak` sibling included) completely
unchanged: the validation failure is raised and caught before any
backup or write happens. -/
theorem C10_save_validation (fs : FS) (cols : List String)
    (rows : List CkRow) (path : String) :
    (path = "" → save_checkpoint fs cols rows path = (false, fs)) ∧
    (hasCols CHECKPOINT_COLUMNS cols = false →
      save_checkpoint fs cols rows path = (false, fs)) := by
  constructor
  · intro h
    unfold save_checkpoint
    simp [h]
  · intro h
    unfold save_checkpoint
    by_cases hp : path = "" <;> simp [hp, h]

/-- Witness for C10 at a concrete file system and frame. -/
theorem C10_save_validation_witness :
    save_checkpoint fsBadCols ["thaiID"] [] "" = (false, fsBadCols) ∧
    save_checkpoint fsBadCols ["thaiID"] [] "cp.csv" = (false, fsBadCols) :=
  ⟨(C10_save_validation fsBadCols ["thaiID"] [] "").1 rfl,
   (C10_save_validation fsBadCols ["thaiID"] [] "cp.csv").2 (by decide)⟩

/-! ### C3: checkpoint merge -/

theorem find?_append_of_left_none {α : Type} {p : α → Bool}
    {l₁ l₂ : List α} (h : ∀ r ∈ l₁, p r = false) :
    (l₁ ++ l₂).find? p = l₂.find? p := by
  have h1 : l₁.find? p = none := by
    rw [List.find?_eq_none]
    intro x hx
    simp [h x hx]
  rw [List.find?_append, h1, Option.none_or]

theorem find?_append_of_right_none {α : Type} {p : α → Bool}
    {l₁ l₂ : List α} (h : l₂.find? p = none) :
    (l₁ ++ l₂).find? p = l₁.find? p := by
  rw [List.find?_append, h, Option.or_none]

theorem find?_filter_of_imp {α : Type} {p q : α → Bool} {l : List α}
    (h : ∀ r ∈ l, p r = true → q r = true) :
    (l.filter q).find? p = l.find? p := by
  induction l with
  | nil => rfl
  | cons a t ih =>
    have ih' := ih (fun r hr hp => h r (List.mem_cons_of_mem a hr) hp)
    by_cases hq : q a = true
    · rw [List.filter_cons_of_pos hq, List.find?_cons, List.find?_cons]
      cases hpa : p a
      · exact ih'
      · rfl
    · have hp : p a = false := by
        by_contra hc
        simp only [Bool.not_eq_false] at hc
        exact hq (h a (List.mem_cons_self a t) hc)
      rw [List.filter_cons_of_neg (by simpa using hq), List.find?_cons, hp, ih']

/-- The composite key is a function of the pair key. -/
theorem concatKey_of_pairKey {r r' : CkRow}
    (h : pairKey r = pairKey r') : concatKey r = concatKey r' := by
  unfold pairKey at h
  obtain ⟨h1, h2⟩ := Prod.mk.injEq .. ▸ h
  unfold concatKey
  rw [h1, h2]

/-- C3 counterexample: store `S = [⟨"a","b_c",...⟩]` and incoming batch
`B = [⟨"a_b","c",...⟩]` share the composite string key `"a_b_c"`
although their `(thaiID, program)` pair keys differ, so the merge drops
a store entry whose pair key is not in the batch — the claimed key-set
equation `(keys(S) \ keys(B)) ∪ keys(B)` fails. -/
theorem C3_counterexample :
    pairKey sRowU ∈ ([sRowU].map normalizeCk).map pairKey ∧
    pairKey sRowU ∉ ([bRowU].map normalizeCk).map pairKey ∧
    pairKey sRowU ∉ (updateExistingCheckpoint [sRowU] [bRowU]).map pairKey := by
  refine ⟨by decide, by decide, by decide⟩

/-- C3 amended: provided the composite string key `thaiID + "_" +
program` is injective across the (normalized) store and batch — in
particular whenever neither field contains an underscore — the merge
satisfies the claimed equation: its pair-key set is
`(keys(S) \ keys(B)) ∪ keys(B)`, on keys of B the merged value is B's
(normalized) value, and on keys only in S the (normalized) original
value is retained. -/
theorem C3_checkpoint_merge (S B : List CkRow)
    (hinj : ∀ s ∈ S.map normalizeCk, ∀ b ∈ B.map normalizeCk,
      concatKey s = concatKey b → pairKey s = pairKey b) :
    (∀ k : String × String,
      k ∈ (updateExistingCheckpoint S B).map pairKey ↔
        (k ∈ (S.map normalizeCk).map pairKey ∧
         k ∉ (B.map normalizeCk).map pairKey) ∨
        k ∈ (B.map normalizeCk).map pairKey) ∧
    (∀ k, k ∈ (B.map normalizeCk).map pairKey →
      lookupRow (updateExistingCheckpoint S B) k =
        lookupRow (B.map normalizeCk) k) ∧
    (∀ k, k ∉ (B.map normalizeCk).map pairKey →
      lookupRow (updateExistingCheckpoint S B) k =
        lookupRow (S.map normalizeCk) k) := by
  classical
  set e := S.map normalizeCk with he
  set c := B.map normalizeCk with hc
  have hupd : updateExistingCheckpoint S B =
      e.filter (fun r => ¬ concatKey r ∈ c.map concatKey) ++ c := rfl
  -- kept rows have a pair key outside the batch
  have hkept : ∀ r ∈ e.filter (fun r => ¬ concatKey r ∈ c.map concatKey),
      r ∈ e ∧ ∀ b ∈ c, pairKey r ≠ pairKey b := by
    intro r hr
    rw [List.mem_filter] at hr
    refine ⟨hr.1, ?_⟩
    intro b hb hpair
    have hck : concatKey r = concatKey b := concatKey_of_pairKey hpair
    have : concatKey r ∈ c.map concatKey := by
      rw [hck]; exact List.mem_map_of_mem _ hb
    simp [this] at hr
  -- rows of the store whose pair key avoids the batch are kept
  have hkeep : ∀ r ∈ e, (∀ b ∈ c, pairKey r ≠ pairKey b) →
      (¬ concatKey r ∈ c.map concatKey) := by
    intro r hr hp hmem
    obtain ⟨b, hb, hck⟩ := List.mem_map.mp hmem
    exact hp b hb (hinj r hr b hb hck.symm)
  refine ⟨?_, ?_, ?_⟩
  · intro k
    rw [hupd]
    constructor
    · intro hk
      rw [List.map_append, List.mem_append] at hk
      rcases hk with hk | hk
      · obtain ⟨r, hr, hrk⟩ := List.mem_map.mp hk
        obtain ⟨hre, hrp⟩ := hkept r hr
        left
        refine ⟨hrk ▸ List.mem_map_of_mem _ hre, ?_⟩
        intro hmem
        obtain ⟨b, hb, hbk⟩ := List.mem_map.mp hmem
        exact hrp b hb (by rw [hrk, hbk])
      · exact Or.inr hk
    · intro hk
      rw [List.map_append, List.mem_append]
      rcases hk with ⟨hke, hkc⟩ | hkc
      · left
        obtain ⟨r, hr, hrk⟩ := List.mem_map.mp hke
        have hrp : ∀ b ∈ c, pairKey r ≠ pairKey b := by
          intro b hb hpair
          exact hkc (hrk ▸ hpair ▸ List.mem_map_of_mem _ hb)
        have := hkeep r hr hrp
        refine hrk ▸ List.mem_map_of_mem _ ?_
        rw [List.mem_filter]
        exact ⟨hr, by simpa using this⟩
      · exact Or.inr hkc
  · intro k hk
    rw [hupd]
    unfold lookupRow
    apply find?_append_of_left_none
    intro r hr
    obtain ⟨b, hb, hbk⟩ := List.mem_map.mp hk
    by_contra hcon
    simp only [Bool.not_eq_false, decide_eq_true_eq] at hcon
    exact (hkept r hr).2 b hb (by rw [hcon, hbk])
  · intro k hk
    rw [hupd]
    unfold lookupRow
    have hcn : c.find? (fun r => pairKey r = k) = none := by
      rw [List.find?_eq_none]
      intro b hb
      simp only [decide_eq_true_eq]
      intro hbk
      exact hk (hbk ▸ List.mem_map_of_mem _ hb)
    rw [find?_append_of_right_none hcn]
    apply find?_filter_of_imp
    intro r hr hp
    simp only [decide_eq_true_eq] at hp
    have hrp : ∀ b ∈ c, pairKey r ≠ pairKey b := by
      intro b hb hpair
      exact hk (hp ▸ hpair ▸ List.mem_map_of_mem _ hb)
    simpa using hkeep r hr hrp

/-- Witness for C3 amended: an underscore-free store/batch pair. -/
theorem C3_checkpoint_merge_witness :
    lookupRow (updateExistingCheckpoint
        [⟨"1", "p", "E1", "R1", 1, "B", "F"⟩]
        [⟨"1", "p", "E2", "R2", 2, "B", "F"⟩]) ("1", "p") =
      some ⟨"1", "p", "E2", "R2", 2, "B", "F"⟩ := by
  have h := (C3_checkpoint_merge
    [⟨"1", "p", "E1", "R1", 1, "B", "F"⟩]
    [⟨"1", "p", "E2", "R2", 2, "B", "F"⟩]
    (by decide)).2.1 ("1", "p") (by decide)
  rw [h]
  decide

/-! ### Machinery for the assigner stages -/

theorem char_eq_of_toNat_eq {a b : Char} (h : a.toNat = b.toNat) :
    a = b := by
  apply Char.eq_of_val_eq
  unfold Char.toNat at h
  exact UInt32.toNat.inj h

theorem charListLt_irrefl : ∀ l : List Char, charListLt l l = false
  | [] => rfl
  | a :: as => by
    rw [charListLt, if_neg (Nat.lt_irrefl _), if_neg (Nat.lt_irrefl _)]
    exact charListLt_irrefl as

theorem charListLt_asymm : ∀ {l₁ l₂ : List Char},
    charListLt l₁ l₂ = true → charListLt l₂ l₁ = false
  | [], [] => fun h => by cases h
  | [], _ :: _ => fun _ => rfl
  | _ :: _, [] => fun h => by cases h
  | a :: as, b :: bs => fun h => by
    rw [charListLt] at h
    rw [charListLt]
    by_cases hab : a.toNat < b.toNat
    · rw [if_neg (Nat.lt_asymm hab), if_pos hab]
    · rw [if_neg hab] at h
      by_cases hba : b.toNat < a.toNat
      · rw [if_pos hba] at h
        cases h
      · rw [if_neg hba] at h
        rw [if_neg hba, if_neg hab]
        exact charListLt_asymm h

theorem charListLt_trans : ∀ {l₁ l₂ l₃ : List Char},
    charListLt l₁ l₂ = true → charListLt l₂ l₃ = true →
    charListLt l₁ l₃ = true
  | [], [], _ => fun h _ => by cases h
  | [], _ :: _, [] => fun _ h => by cases h
  | [], _ :: _, _ :: _ => fun _ _ => rfl
  | _ :: _, [], _ => fun h _ => by cases h
  | _ :: _, _ :: _, [] => fun _ h => by cases h
  | a :: as, b :: bs, c :: cs => fun h1 h2 => by
    rw [charListLt] at h1 h2
    rw [charListLt]
    by_cases hab : a.toNat < b.toNat
    · by_cases hbc : b.toNat < c.toNat
      · rw [if_pos (Nat.lt_trans hab hbc)]
      · rw [if_neg hbc] at h2
        by_cases hcb : c.toNat < b.toNat
        · rw [if_pos hcb] at h2
          cases h2
        · rw [if_pos (show a.toNat < c.toNat by omega)]
    · rw [if_neg hab] at h1
      by_cases hba : b.toNat < a.toNat
      · rw [if_pos hba] at h1
        cases h1
      · rw [if_neg hba] at h1
        by_cases hbc : b.toNat < c.toNat
        · rw [if_pos (show a.toNat < c.toNat by omega)]
        · rw [if_neg hbc] at h2
          by_cases hcb : c.toNat < b.toNat
          · rw [if_pos hcb] at h2
            cases h2
          · rw [if_neg hcb] at h2
            rw [if_neg (show ¬ a.toNat < c.toNat by omega),
              if_neg (show ¬ c.toNat < a.toNat by omega)]
            exact charListLt_trans h1 h2

theorem charListLt_eq_of_not : ∀ {l₁ l₂ : List Char},
    charListLt l₁ l₂ = false → charListLt l₂ l₁ = false → l₁ = l₂
  | [], [] => fun _ _ => rfl
  | [], _ :: _ => fun h _ => by cases h
  | _ :: _, [] => fun _ h => by cases h
  | a :: as, b :: bs => fun h1 h2 => by
    rw [charListLt] at h1 h2
    by_cases hab : a.toNat < b.toNat
    · rw [if_pos hab] at h1
      cases h1
    · by_cases hba : b.toNat < a.toNat
      · rw [if_pos hba] at h2
        cases h2
      · rw [if_neg hab, if_neg hba] at h1
        rw [if_neg hba, if_neg hab] at h2
        have habeq : a = b := char_eq_of_toNat_eq
          (Nat.le_antisymm (Nat.le_of_not_lt hba) (Nat.le_of_not_lt hab))
        rw [habeq, charListLt_eq_of_not h1 h2]

theorem strLt_eq_of_not {s t : String} (h1 : strLt s t = false)
    (h2 : strLt t s = false) : s = t := by
  unfold strLt at h1 h2
  cases s with
  | mk ds =>
    cases t with
    | mk dt =>
      exact congrArg String.mk (charListLt_eq_of_not h1 h2)

theorem keyLe_total (x y : String × String) : keyLe x y ∨ keyLe y x := by
  by_cases h1 : strLt x.1 y.1 = true
  · exact Or.inl (Or.inl h1)
  · by_cases h2 : strLt y.1 x.1 = true
    · exact Or.inr (Or.inl h2)
    · have heq : x.1 = y.1 := strLt_eq_of_not
        (Bool.not_eq_true _ ▸ h1) (Bool.not_eq_true _ ▸ h2)
      by_cases h3 : strLt y.2 x.2 = true
      · refine Or.inr (Or.inr ⟨heq.symm, ?_⟩)
        unfold strLe strLt
        unfold strLt at h3
        rw [charListLt_asymm h3]
        rfl
      · refine Or.inl (Or.inr ⟨heq, ?_⟩)
        unfold strLe
        have h3' : strLt y.2 x.2 = false := by simpa using h3
        rw [h3']
        rfl

theorem strLe_trans {a b c : String} (h1 : strLe a b = true)
    (h2 : strLe b c = true) : strLe a c = true := by
  unfold strLe at h1 h2 ⊢
  simp only [Bool.not_eq_true'] at h1 h2 ⊢
  by_contra hca
  simp only [Bool.not_eq_false] at hca
  by_cases hbc : strLt b c = true
  · have h3 : strLt b a = true := by
      unfold strLt at hbc hca ⊢
      exact charListLt_trans hbc hca
    rw [h1] at h3
    cases h3
  · have hbceq : b = c := strLt_eq_of_not (Bool.not_eq_true _ ▸ hbc) h2
    rw [← hbceq] at hca
    rw [h1] at hca
    cases hca

theorem keyLe_trans {x y z : String × String}
    (h1 : keyLe x y) (h2 : keyLe y z) : keyLe x z := by
  rcases h1 with h1 | ⟨he1, hl1⟩ <;> rcases h2 with h2 | ⟨he2, hl2⟩
  · refine Or.inl ?_
    unfold strLt at h1 h2 ⊢
    exact charListLt_trans h1 h2
  · exact Or.inl (he2 ▸ h1)
  · exact Or.inl (he1 ▸ h2)
  · exact Or.inr ⟨he1.trans he2, strLe_trans hl1 hl2⟩

theorem keyLe_antisymm {x y : String × String}
    (h1 : keyLe x y) (h2 : keyLe y x) : x = y := by
  rcases h1 with h1 | ⟨he1, hl1⟩ <;> rcases h2 with h2 | ⟨he2, hl2⟩
  · unfold strLt at h1 h2
    rw [charListLt_asymm h1] at h2
    cases h2
  · rw [he2] at h1
    unfold strLt at h1
    rw [charListLt_irrefl] at h1
    cases h1
  · rw [he1] at h2
    unfold strLt at h2
    rw [charListLt_irrefl] at h2
    cases h2
  · have hsnd : x.2 = y.2 := by
      unfold strLe at hl1 hl2
      simp only [Bool.not_eq_true'] at hl1 hl2
      exact strLt_eq_of_not hl2 hl1
    exact Prod.ext he1 hsnd

instance rowLe_total : IsTotal Row rowLe :=
  ⟨fun a b => keyLe_total (rowKey a) (rowKey b)⟩

instance rowLe_trans : IsTrans Row rowLe :=
  ⟨fun _ _ _ hab hbc => keyLe_trans hab hbc⟩

theorem forall₂_refl_of {α : Type} {R : α → α → Prop} (hr : ∀ a, R a a) :
    ∀ l : List α, List.Forall₂ R l l
  | [] => List.Forall₂.nil
  | a :: t => List.Forall₂.cons (hr a) (forall₂_refl_of hr t)

theorem forall₂_trans_of {α : Type} {R : α → α → Prop} (ht : Transitive R)
    {l₁ l₂ l₃ : List α} (h12 : List.Forall₂ R l₁ l₂)
    (h23 : List.Forall₂ R l₂ l₃) : List.Forall₂ R l₁ l₃ := by
  induction h12 generalizing l₃ with
  | nil => cases h23; exact List.Forall₂.nil
  | cons hab _ ih =>
    cases h23 with
    | cons hbc h' => exact List.Forall₂.cons (ht hab hbc) (ih h')

theorem forall₂_mem_right {α β : Type} {R : α → β → Prop}
    {l : List α} {l' : List β} (h : List.Forall₂ R l l') :
    ∀ b ∈ l', ∃ a ∈ l, R a b := by
  induction h with
  | nil => intro b hb; cases hb
  | cons hab _ ih =>
    intro b hb
    rcases List.mem_cons.mp hb with hb | hb
    · exact ⟨_, List.mem_cons_self _ _, hb ▸ hab⟩
    · obtain ⟨a, ha, har⟩ := ih b hb
      exact ⟨a, List.mem_cons_of_mem _ ha, har⟩

theorem forall₂_map_eq {α β γ : Type} {R : α → β → Prop}
    {f : α → γ} {g : β → γ} (hf : ∀ a b, R a b → f a = g b)
    {l : List α} {l' : List β} (h : List.Forall₂ R l l') :
    l.map f = l'.map g := by
  induction h with
  | nil => rfl
  | cons hab _ ih => simpa [hf _ _ hab] using ih

theorem forall₂_filter_map_eq {α β γ : Type} {R : α → β → Prop}
    {c : α → Bool} {d : β → Bool} {f : α → γ} {g : β → γ}
    (hc : ∀ a b, R a b → c a = d b) (hf : ∀ a b, R a b → f a = g b)
    {l : List α} {l' : List β} (h : List.Forall₂ R l l') :
    (l.filter c).map f = (l'.filter d).map g := by
  induction h with
  | nil => rfl
  | @cons a b l₁ l₂ hab htail ih =>
    have hcd := hc _ _ hab
    by_cases hca : c a = true
    · have hdb : d b = true := by rw [← hcd]; exact hca
      rw [List.filter_cons_of_pos hca, List.filter_cons_of_pos hdb,
        List.map_cons, List.map_cons, hf _ _ hab, ih]
    · have hdb : ¬ d b = true := by rw [← hcd]; exact hca
      rw [List.filter_cons_of_neg hca, List.filter_cons_of_neg hdb, ih]

theorem SRel_refl (q : String) (r : Row) : SRel q r r :=
  ⟨⟨rfl, rfl, rfl, rfl, rfl, rfl⟩, fun _ => rfl, fun _ => rfl⟩

theorem TRel_refl (r : Row) : TRel r r :=
  ⟨⟨rfl, rfl, rfl, rfl, rfl, rfl⟩, fun _ => rfl⟩

theorem TRelP_refl (p : String) (r : Row) : TRelP p r r :=
  ⟨TRel_refl r, fun _ => rfl⟩

theorem SRel_TRel {q : String} {r r' : Row} (h : SRel q r r') : TRel r r' :=
  ⟨h.1, h.2.1⟩

theorem SRel_TRelP {p q : String} (hne : q ≠ p) {r r' : Row}
    (h : SRel q r r') : TRelP p r r' :=
  ⟨⟨h.1, h.2.1⟩, fun hp => h.2.2 (fun he => hne (he ▸ hp ▸ rfl))⟩

theorem TRel_trans : Transitive TRel := by
  intro a b c hab hbc
  obtain ⟨⟨i1, i2, i3, i4, i5, i6⟩, hr⟩ := hab
  obtain ⟨⟨j1, j2, j3, j4, j5, j6⟩, hr'⟩ := hbc
  refine ⟨⟨j1.trans i1, j2.trans i2, j3.trans i3, j4.trans i4,
    j5.trans i5, j6.trans i6⟩, ?_⟩
  intro hne
  have hb : b = a := hr hne
  subst hb
  exact hr' hne

theorem TRelP_trans (p : String) : Transitive (TRelP p) := by
  intro a b c hab hbc
  refine ⟨TRel_trans hab.1 hbc.1, ?_⟩
  intro hp
  have hb : b = a := hab.2 hp
  subst hb
  exact hbc.2 hp

theorem applySeats_rel (cfg : Config) (q : String) :
    ∀ (rows : List Row) (ps : List (String × Int)),
      List.Forall₂ (SRel q) rows (applySeats cfg q rows ps) := by
  intro rows
  induction rows with
  | nil =>
    intro ps
    cases ps with
    | nil => exact List.Forall₂.nil
    | cons pr tl =>
      obtain ⟨room, no⟩ := pr
      exact List.Forall₂.nil
  | cons r rs ih =>
    intro ps
    cases ps with
    | nil =>
      show List.Forall₂ (SRel q) (r :: rs) (r :: rs)
      exact forall₂_refl_of (SRel_refl q) _
    | cons pr tl =>
      obtain ⟨room, no⟩ := pr
      by_cases h : r.program = q ∧ r.exam_room = ""
      · rw [applySeats, if_pos h]
        refine List.Forall₂.cons ⟨⟨rfl, rfl, rfl, rfl, rfl, rfl⟩, ?_, ?_⟩ (ih tl)
        · intro hne; exact absurd h.2 hne
        · intro hne; exact absurd h.1 hne
      · rw [applySeats, if_neg h]
        exact List.Forall₂.cons (SRel_refl q r) (ih ((room, no) :: tl))

theorem passProgram_rel (cfg : Config) (chk : Checkpoint)
    (rows : List Row) (q : String) :
    List.Forall₂ (SRel q) rows (passProgram cfg chk rows q) := by
  unfold passProgram
  dsimp only
  split
  · exact forall₂_refl_of (SRel_refl q) rows
  · split
    · exact forall₂_refl_of (SRel_refl q) rows
    · split
      · exact applySeats_rel cfg q rows _
      · exact forall₂_refl_of (SRel_refl q) rows

theorem passProgram_of_no_plan (cfg : Config) (chk : Checkpoint)
    (rows : List Row) (p : String)
    (h : lookupA cfg.exam_rooms p = none) :
    passProgram cfg chk rows p = rows := by
  unfold passProgram
  dsimp only
  rw [h]
  split <;> rfl

theorem foldl_pass_rel (cfg : Config) (chk : Checkpoint)
    (qs : List String) :
    ∀ rows : List Row,
      List.Forall₂ TRel rows (qs.foldl (passProgram cfg chk) rows) := by
  induction qs with
  | nil => intro rows; exact forall₂_refl_of TRel_refl rows
  | cons q qt ih =>
    intro rows
    rw [List.foldl_cons]
    exact forall₂_trans_of TRel_trans
      ((passProgram_rel cfg chk rows q).imp (fun _ _ => SRel_TRel))
      (ih (passProgram cfg chk rows q))

theorem assignRooms_rel (cfg : Config) (chk : Checkpoint)
    (rows : List Row) :
    List.Forall₂ TRel rows (assignRoomsByProgram cfg chk rows) :=
  foldl_pass_rel cfg chk _ rows

theorem foldl_pass_relP (cfg : Config) (chk : Checkpoint) (p : String)
    (hplan : lookupA cfg.exam_rooms p = none) (qs : List String) :
    ∀ rows : List Row,
      List.Forall₂ (TRelP p) rows (qs.foldl (passProgram cfg chk) rows) := by
  induction qs with
  | nil => intro rows; exact forall₂_refl_of (TRelP_refl p) rows
  | cons q qt ih =>
    intro rows
    rw [List.foldl_cons]
    refine forall₂_trans_of (TRelP_trans p) ?_
      (ih (passProgram cfg chk rows q))
    by_cases hq : q = p
    · subst hq
      rw [passProgram_of_no_plan cfg chk rows q hplan]
      exact forall₂_refl_of (TRelP_refl q) rows
    · exact (passProgram_rel cfg chk rows q).imp (fun _ _ => SRel_TRelP hq)

theorem assignRooms_relP (cfg : Config) (chk : Checkpoint) (p : String)
    (hplan : lookupA cfg.exam_rooms p = none) (rows : List Row) :
    List.Forall₂ (TRelP p) rows (assignRoomsByProgram cfg chk rows) :=
  foldl_pass_relP cfg chk p hplan _ rows

theorem assignRunningAux_runRel (chk : Checkpoint) (hi : String → Nat) :
    ∀ (cnt : String → Nat) (l : List Row),
      List.Forall₂ runRel l (assignRunningAux chk hi cnt l) := by
  intro cnt l
  induction l generalizing cnt with
  | nil => exact List.Forall₂.nil
  | cons r rs ih =>
    by_cases h : isNewRow chk r = true
    · rw [assignRunningAux, if_pos h]
      exact List.Forall₂.cons rfl (ih _)
    · rw [assignRunningAux, if_neg h]
      exact List.Forall₂.cons rfl (ih _)

theorem runRel_fields {r r' : Row} (h : runRel r r') :
    r'.thaiID = r.thaiID ∧ r'.program = r.program ∧
    r'.firstname = r.firstname ∧ r'.lastname = r.lastname ∧
    r'.exam_id = r.exam_id ∧ r'.exam_room = r.exam_room ∧
    r'.exam_no = r.exam_no ∧ r'.exam_building = r.exam_building ∧
    r'.exam_floor = r.exam_floor := by
  rw [h]
  exact ⟨rfl, rfl, rfl, rfl, rfl, rfl, rfl, rfl, rfl⟩

theorem genIds_fields (cfg : Config) (r : Row) :
    (genIds cfg r).thaiID = r.thaiID ∧ (genIds cfg r).program = r.program ∧
    (genIds cfg r).firstname = r.firstname ∧
    (genIds cfg r).lastname = r.lastname ∧
    (genIds cfg r).runningNumber = r.runningNumber := by
  unfold genIds
  split <;> exact ⟨rfl, rfl, rfl, rfl, rfl⟩

theorem applyChk_fields (chk : Checkpoint) (r : Row) :
    (applyChk chk r).thaiID = r.thaiID ∧
    (applyChk chk r).program = r.program ∧
    (applyChk chk r).firstname = r.firstname ∧
    (applyChk chk r).lastname = r.lastname ∧
    (applyChk chk r).runningNumber = r.runningNumber := by
  unfold applyChk
  split <;> exact ⟨rfl, rfl, rfl, rfl, rfl⟩

theorem applyChk_of_lookup {chk : Checkpoint} {r : Row}
    {a : SeatAssignment} (h : lookupA chk (r.thaiID, r.program) = some a) :
    applyChk chk r =
      { r with
        exam_id := a.exam_id, exam_room := a.exam_room,
        exam_no := a.exam_no, exam_building := a.exam_building,
        exam_floor := a.exam_floor } := by
  unfold applyChk
  rw [h]

theorem applyChk_of_isNew {chk : Checkpoint} {r : Row}
    (h : isNewRow chk r = true) : applyChk chk r = r := by
  unfold isNewRow at h
  unfold applyChk
  cases hl : lookupA chk (r.thaiID, r.program) with
  | none => rfl
  | some a => rw [hl] at h; simp [Option.isNone] at h

theorem isNewRow_congr {chk : Checkpoint} {r r' : Row}
    (h1 : r.thaiID = r'.thaiID) (h2 : r.program = r'.program) :
    isNewRow chk r = isNewRow chk r' := by
  unfold isNewRow
  rw [h1, h2]

theorem assignRunningAux_pos (chk : Checkpoint) (hi : String → Nat) :
    ∀ (cnt : String → Nat) (l : List Row) (r : Row),
      r ∈ assignRunningAux chk hi cnt l → isNewRow chk r = true →
      0 < r.runningNumber := by
  intro cnt l
  induction l generalizing cnt with
  | nil => intro r hr; cases hr
  | cons x t ih =>
    intro r hr hnew
    by_cases hx : isNewRow chk x = true
    · rw [assignRunningAux, if_pos hx] at hr
      rcases List.mem_cons.mp hr with hr | hr
      · rw [hr]
        exact Nat.succ_pos _
      · exact ih _ r hr hnew
    · rw [assignRunningAux, if_neg hx] at hr
      rcases List.mem_cons.mp hr with hr | hr
      · rw [hr] at hnew
        exact absurd hnew hx
      · exact ih _ r hr hnew

theorem genIds_of_pos {cfg : Config} {r : Row} (h : 0 < r.runningNumber) :
    genIds cfg r =
      { r with
        exam_id := prefixD cfg r.program ++ zfill3 (natStr r.runningNumber),
        exam_room := "", exam_no := 0,
        exam_building := UNSPEC, exam_floor := UNSPEC } := by
  unfold genIds
  rw [if_pos h]
  rfl

/-! ### C1: resumability -/

/-- C1 amended: a key present in the checkpoint whose *stored room is
non-empty* keeps all five stored fields verbatim in every run,
including runs on supersets of the originally assigned records; and no
record is dropped or invented (the multiset of output keys equals the
multiset of input keys).  (The claim's unrestricted form fails for
stored entries with an empty room, see the counterexample.) -/
theorem C1_resumability_kept (cfg : Config) (chk : Checkpoint)
    (students : List Student) :
    (∀ r ∈ assign_exam_details cfg chk students, ∀ a : SeatAssignment,
      lookupA chk (r.thaiID, r.program) = some a → a.exam_room ≠ "" →
      r.exam_id = a.exam_id ∧ r.exam_room = a.exam_room ∧
      r.exam_no = a.exam_no ∧ r.exam_building = a.exam_building ∧
      r.exam_floor = a.exam_floor) ∧
    ((assign_exam_details cfg chk students).map rowPKey).Perm
      (students.map studKey) := by
  have hout : assign_exam_details cfg chk students =
      assignRoomsByProgram cfg chk
        (((assignRunningAux chk (highestExamId cfg chk) (fun _ => 0)
          (List.insertionSort rowLe (students.map initRow))).map
            (genIds cfg)).map (applyChk chk)) := rfl
  set numbered := assignRunningAux chk (highestExamId cfg chk) (fun _ => 0)
    (List.insertionSort rowLe (students.map initRow)) with hnum
  constructor
  · intro r hr a hla hane
    rw [hout] at hr
    obtain ⟨r₀, hr₀mem, hrel₀⟩ :=
      forall₂_mem_right (assignRooms_rel cfg chk _) r hr
    obtain ⟨r₁, hr₁, hr₀eq⟩ := List.mem_map.mp hr₀mem
    obtain ⟨hid1, hid2, _, _, _, _⟩ := hrel₀.1
    have hk1 : r₁.thaiID = r.thaiID := by
      rw [hid1, ← hr₀eq]
      exact ((applyChk_fields chk r₁).1).symm
    have hk2 : r₁.program = r.program := by
      rw [hid2, ← hr₀eq]
      exact ((applyChk_fields chk r₁).2.1).symm
    have hla₁ : lookupA chk (r₁.thaiID, r₁.program) = some a := by
      rw [hk1, hk2]
      exact hla
    have hr₀val : r₀ =
        { r₁ with
          exam_id := a.exam_id, exam_room := a.exam_room,
          exam_no := a.exam_no, exam_building := a.exam_building,
          exam_floor := a.exam_floor } := by
      rw [← hr₀eq]
      exact applyChk_of_lookup hla₁
    have hroom₀ : r₀.exam_room = a.exam_room := by rw [hr₀val]
    have hrr₀ : r = r₀ := hrel₀.2 (by rw [hroom₀]; exact hane)
    rw [hrr₀, hr₀val]
    exact ⟨rfl, rfl, rfl, rfl, rfl⟩
  · rw [hout]
    have h1 : (assignRoomsByProgram cfg chk
        ((numbered.map (genIds cfg)).map (applyChk chk))).map rowPKey =
        ((numbered.map (genIds cfg)).map (applyChk chk)).map rowPKey := by
      refine (forall₂_map_eq ?_ (assignRooms_rel cfg chk _)).symm
      intro a b hab
      obtain ⟨h1, h2, _⟩ := hab.1
      unfold rowPKey
      rw [h1, h2]
    have h2 : ((numbered.map (genIds cfg)).map (applyChk chk)).map rowPKey =
        numbered.map rowPKey := by
      rw [List.map_map, List.map_map]
      apply List.map_congr_left
      intro r _
      show rowPKey (applyChk chk (genIds cfg r)) = rowPKey r
      unfold rowPKey
      rw [(applyChk_fields chk _).1, (applyChk_fields chk _).2.1,
        (genIds_fields cfg r).1, (genIds_fields cfg r).2.1]
    have h3 : numbered.map rowPKey =
        (List.insertionSort rowLe (students.map initRow)).map rowPKey := by
      refine (forall₂_map_eq ?_ (assignRunningAux_runRel chk _ _ _)).symm
      intro a b hab
      obtain ⟨k1, k2, _⟩ := runRel_fields hab
      unfold rowPKey
      rw [k1, k2]
    rw [h1, h2, h3]
    have h4 := (List.perm_insertionSort rowLe (students.map initRow)).map rowPKey
    refine h4.trans ?_
    rw [List.map_map]
    exact List.Perm.refl _

/-- C1 counterexample: the checkpoint stores the key
`("1", "test-program")` with an empty room and seat 0 (a persisted
overflow record); re-running on a record with that key returns room
"TestRoom" and seat 1, not the stored assignment verbatim —
`_assign_rooms_by_program` re-seats every row whose applied room is
empty. -/
theorem C1_counterexample :
    (assign_exam_details cfgT chkEmptyRoom studEmptyRoom).map
        (fun r => (r.thaiID, r.exam_id, r.exam_room, r.exam_no)) =
      [("1", "99001", "TestRoom", 1)] ∧
    lookupA chkEmptyRoom ("1", "test-program") =
      some ⟨"99001", "", 0, UNSPEC, UNSPEC⟩ := by
  constructor <;> decide

/-- Witness for C1 amended, at a one-record run over a checkpoint whose
stored room is non-empty. -/
theorem C1_resumability_kept_witness :
    rowW.exam_id = "99001" ∧ rowW.exam_room = "TestRoom" ∧
    rowW.exam_no = 1 ∧ rowW.exam_building = "B" ∧
    rowW.exam_floor = "F" := by
  have h := (C1_resumability_kept cfgT chkW studsW).1 rowW (by decide)
    ⟨"99001", "TestRoom", 1, "B", "F"⟩ (by decide) (by decide)
  exact h

/-! ### C2: order independence -/

/-- Two sorted lists that are permutations of each other and have
pairwise-distinct sort keys are equal. -/
theorem sorted_perm_nodupkeys_eq :
    ∀ {l₁ l₂ : List Row}, l₁.Perm l₂ → l₁.Sorted rowLe →
      l₂.Sorted rowLe →
      l₁.Pairwise (fun a b => rowKey a ≠ rowKey b) → l₁ = l₂ := by
  intro l₁
  induction l₁ with
  | nil =>
    intro l₂ hp _ _ _
    exact hp.nil_eq
  | cons a t ih =>
    intro l₂ hp hs1 hs2 hpw
    cases l₂ with
    | nil =>
      have := hp.length_eq
      simp at this
    | cons b t₂ =>
      by_cases hab : a = b
      · subst hab
        have ht : t.Perm t₂ := hp.cons_inv
        have htail := ih ht ((List.pairwise_cons.mp hs1).2)
          ((List.pairwise_cons.mp hs2).2) ((List.pairwise_cons.mp hpw).2)
        rw [htail]
      · exfalso
        have hamem : a ∈ b :: t₂ := hp.mem_iff.mp (List.mem_cons_self a t)
        have hbmem : b ∈ a :: t := hp.mem_iff.mpr (List.mem_cons_self b t₂)
        have hat₂ : a ∈ t₂ := by
          rcases List.mem_cons.mp hamem with h | h
          · exact absurd h hab
          · exact h
        have hbt : b ∈ t := by
          rcases List.mem_cons.mp hbmem with h | h
          · exact absurd h.symm hab
          · exact h
        have h1 : rowLe a b := List.rel_of_sorted_cons hs1 b hbt
        have h2 : rowLe b a := List.rel_of_sorted_cons hs2 a hat₂
        have hk : rowKey a = rowKey b := keyLe_antisymm h1 h2
        exact (List.pairwise_cons.mp hpw).1 b hbt hk

/-- C2 amended: for a fixed checkpoint and a fixed set of records with
*pairwise-distinct* sort-key pairs, running the assignment on any
permutation of the input order yields the identical output (hence
identical (examID, room, seat) for every key).  Ties in the sort key
are indeed broken by original input order (the multi-column
`sort_values` is numpy's stable `lexsort`), which is exactly why
order-independence fails for tied records — see the counterexample. -/
theorem C2_order_independence (cfg : Config) (chk : Checkpoint)
    (l₁ l₂ : List Student) (hperm : l₁.Perm l₂)
    (hkeys : l₁.Pairwise (fun s s' =>
      (get_thai_sort_key s.firstname, get_thai_sort_key s.lastname) ≠
      (get_thai_sort_key s'.firstname, get_thai_sort_key s'.lastname))) :
    assign_exam_details cfg chk l₁ = assign_exam_details cfg chk l₂ := by
  have h0 : (l₁.map initRow).Pairwise (fun a b => rowKey a ≠ rowKey b) := by
    rw [List.pairwise_map]
    exact hkeys.imp (fun h => h)
  have hsym : ∀ {x y : Row},
      rowKey x ≠ rowKey y → rowKey y ≠ rowKey x :=
    fun h he => h he.symm
  have hsort_eq : List.insertionSort rowLe (l₁.map initRow) =
      List.insertionSort rowLe (l₂.map initRow) := by
    apply sorted_perm_nodupkeys_eq
    · exact (List.perm_insertionSort _ _).trans
        ((hperm.map initRow).trans (List.perm_insertionSort _ _).symm)
    · exact List.sorted_insertionSort _ _
    · exact List.sorted_insertionSort _ _
    · exact ((List.perm_insertionSort rowLe
        (l₁.map initRow)).pairwise_iff hsym).mpr h0
  show assignRoomsByProgram cfg chk
      (((assignRunningAux chk (highestExamId cfg chk) (fun _ => 0)
        (List.insertionSort rowLe (l₁.map initRow))).map
          (genIds cfg)).map (applyChk chk)) =
    assignRoomsByProgram cfg chk
      (((assignRunningAux chk (highestExamId cfg chk) (fun _ => 0)
        (List.insertionSort rowLe (l₂.map initRow))).map
          (genIds cfg)).map (applyChk chk))
  rw [hsort_eq]

/-- C2 counterexample: two records with identical names (identical
sort keys) and different ids.  The sort is stable, so they keep their
input order, and permuting the input swaps their exam ids and seats —
key "1" gets seat 1 in one order and seat 2 in the other. -/
theorem C2_counterexample :
    [studTieA, studTieB].Perm [studTieB, studTieA] ∧
    (assign_exam_details cfgTie [] [studTieA, studTieB]).map
        (fun r => (r.thaiID, r.exam_id, r.exam_no)) =
      [("1", "77001", 1), ("2", "77002", 2)] ∧
    (assign_exam_details cfgTie [] [studTieB, studTieA]).map
        (fun r => (r.thaiID, r.exam_id, r.exam_no)) =
      [("2", "77001", 1), ("1", "77002", 2)] :=
  ⟨List.Perm.swap studTieB studTieA [], by decide, by decide⟩

/-- Witness for C2 amended: a two-record permutation with distinct
sort keys yields the same output in both orders. -/
theorem C2_order_independence_witness :
    assign_exam_details cfgTie [] [studDistA, studDistB] =
      assign_exam_details cfgTie [] [studDistB, studDistA] :=
  C2_order_independence cfgTie [] [studDistA, studDistB]
    [studDistB, studDistA] (List.Perm.swap studDistB studDistA [])
    (by decide)

/-! ### Decimal rendering and parsing lemmas (for C6) -/

theorem digitChar_isDigit {n : Nat} (h : n < 10) :
    (digitChar n).isDigit = true := by
  interval_cases n <;> decide

theorem digitChar_toNat {n : Nat} (h : n < 10) :
    (digitChar n).toNat = 48 + n := by
  interval_cases n <;> decide

theorem digitsVal_append_one (ds : List Char) (c : Char) :
    digitsVal (ds ++ [c]) = digitsVal ds * 10 + (c.toNat - 48) := by
  unfold digitsVal
  rw [List.foldl_append]
  rfl

theorem natDigitsAux_spec : ∀ (fuel n : Nat), n < fuel →
    natDigitsAux fuel n ≠ [] ∧
    (∀ c ∈ natDigitsAux fuel n, c.isDigit = true) ∧
    digitsVal (natDigitsAux fuel n) = n := by
  intro fuel
  induction fuel with
  | zero => intro n h; omega
  | succ f ih =>
    intro n h
    rw [natDigitsAux]
    by_cases h10 : n < 10
    · rw [if_pos h10]
      refine ⟨by simp, ?_, ?_⟩
      · intro c hc
        rw [List.mem_singleton] at hc
        rw [hc]
        exact digitChar_isDigit h10
      · show digitsVal ([] ++ [digitChar n]) = n
        rw [digitsVal_append_one, digitChar_toNat h10]
        show 0 * 10 + (48 + n - 48) = n
        omega
    · rw [if_neg h10]
      have hdiv : n / 10 < f := by omega
      obtain ⟨hne, hdig, hval⟩ := ih (n / 10) hdiv
      refine ⟨by simp, ?_, ?_⟩
      · intro c hc
        rcases List.mem_append.mp hc with hc | hc
        · exact hdig c hc
        · rw [List.mem_singleton] at hc
          rw [hc]
          exact digitChar_isDigit (Nat.mod_lt _ (by norm_num))
      · rw [digitsVal_append_one, hval,
          digitChar_toNat (Nat.mod_lt _ (by norm_num))]
        omega

theorem natDigits_spec (n : Nat) :
    natDigits n ≠ [] ∧ (∀ c ∈ natDigits n, c.isDigit = true) ∧
    digitsVal (natDigits n) = n :=
  natDigitsAux_spec (n + 1) n (Nat.lt_succ_self n)

theorem digitsVal_rep_zero :
    ∀ (k : Nat) (ds : List Char),
      digitsVal (List.replicate k '0' ++ ds) = digitsVal ds
  | 0, ds => rfl
  | k + 1, ds => by
    rw [List.replicate_succ, List.cons_append]
    show digitsVal ('0' :: (List.replicate k '0' ++ ds)) = digitsVal ds
    rw [show digitsVal ('0' :: (List.replicate k '0' ++ ds)) =
      digitsVal (List.replicate k '0' ++ ds) from rfl]
    exact digitsVal_rep_zero k ds

theorem pyParseInt_digits (ds : List Char) (hne : ds ≠ [])
    (hdig : ∀ c ∈ ds, c.isDigit = true) :
    pyParseInt (String.mk ds) = some (Int.ofNat (digitsVal ds)) := by
  cases ds with
  | nil => exact absurd rfl hne
  | cons c cs =>
    have hc := hdig c (List.mem_cons_self c cs)
    have hc1 : ¬ c = '-' := by
      intro h
      rw [h] at hc
      exact absurd hc (by decide)
    have hc2 : ¬ c = '+' := by
      intro h
      rw [h] at hc
      exact absurd hc (by decide)
    have hall : (c :: cs).all Char.isDigit = true :=
      List.all_eq_true.mpr (fun x hx => hdig x hx)
    unfold pyParseInt
    dsimp only
    rw [if_neg hc1, if_neg hc2, if_pos hall]

theorem parse_zfill3_natStr (n : Nat) :
    pyParseInt (zfill3 (natStr n)) = some (Int.ofNat n) := by
  obtain ⟨hne, hdig, hval⟩ := natDigits_spec n
  unfold zfill3 natStr
  by_cases hlen : (String.mk (natDigits n)).data.length ≥ 3
  · rw [if_pos hlen, pyParseInt_digits _ hne hdig, hval]
  · rw [if_neg hlen]
    have hne2 : List.replicate (3 - (String.mk (natDigits n)).data.length)
        '0' ++ (String.mk (natDigits n)).data ≠ [] := by
      intro h
      rcases List.append_eq_nil.mp h with ⟨_, h2⟩
      exact hne h2
    have hdig2 : ∀ c ∈ List.replicate
        (3 - (String.mk (natDigits n)).data.length) '0' ++
        (String.mk (natDigits n)).data, c.isDigit = true := by
      intro c hc
      rcases List.mem_append.mp hc with hc | hc
      · rw [List.eq_of_mem_replicate hc]
        decide
      · exact hdig c hc
    rw [pyParseInt_digits _ hne2 hdig2, digitsVal_rep_zero, hval]

theorem strDrop_append (pre t : String) :
    strDrop (pre ++ t) (strLen pre) = t := by
  unfold strDrop strLen
  rw [String.data_append, List.drop_left]

theorem strStartsWith_append (pre t : String) :
    strStartsWith (pre ++ t) pre = true := by
  unfold strStartsWith
  rw [String.data_append, List.isPrefixOf_iff_prefix]
  exact List.prefix_append _ _

/-! ### Highest-exam-id fold lemmas (for C6) -/

theorem hstep_ge (cfg : Config) (p : String) (acc : Nat)
    (e : (String × String) × SeatAssignment) : acc ≤ hstep cfg p acc e := by
  unfold hstep
  split
  · split
    · split
      · split
        · exact Nat.le_max_left _ _
        · exact Nat.le_refl _
      · exact Nat.le_refl _
    · exact Nat.le_refl _
  · exact Nat.le_refl _

theorem foldl_hstep_ge (cfg : Config) (p : String) :
    ∀ (l : Checkpoint) (acc : Nat), acc ≤ l.foldl (hstep cfg p) acc := by
  intro l
  induction l with
  | nil => intro acc; exact Nat.le_refl _
  | cons e t ih =>
    intro acc
    rw [List.foldl_cons]
    exact (hstep_ge cfg p acc e).trans (ih _)

theorem hstep_eq_of_conds {cfg : Config} {p : String}
    {e : (String × String) × SeatAssignment} {pre : String} {n : Int}
    (hp : e.1.2 = p) (hpre : lookupA cfg.idPrefixes p = some pre)
    (hsw : strStartsWith e.2.exam_id pre = true)
    (hparse : pyParseInt (strDrop e.2.exam_id (strLen pre)) = some n)
    (acc : Nat) : hstep cfg p acc e = max acc n.toNat := by
  unfold hstep
  rw [if_pos hp, hpre]
  dsimp only
  rw [if_pos hsw, hparse]

theorem foldl_hstep_elt (cfg : Config) (p : String) :
    ∀ (l : Checkpoint) (acc : Nat), ∀ e ∈ l, e.1.2 = p →
      ∀ pre, lookupA cfg.idPrefixes p = some pre →
      strStartsWith e.2.exam_id pre = true →
      ∀ n : Int, pyParseInt (strDrop e.2.exam_id (strLen pre)) = some n →
      n.toNat ≤ l.foldl (hstep cfg p) acc := by
  intro l
  induction l with
  | nil => intro acc e he; cases he
  | cons f t ih =>
    intro acc e he hp pre hpre hsw n hparse
    rw [List.foldl_cons]
    rcases List.mem_cons.mp he with he | he
    · subst he
      have h1 : hstep cfg p acc e = max acc n.toNat :=
        hstep_eq_of_conds hp hpre hsw hparse acc
      calc n.toNat ≤ max acc n.toNat := Nat.le_max_right _ _
        _ = hstep cfg p acc e := h1.symm
        _ ≤ t.foldl (hstep cfg p) (hstep cfg p acc e) :=
            foldl_hstep_ge cfg p t _
    · exact ih _ e he hp pre hpre hsw n hparse

/-! ### Running-number range lemma (for C6) -/

theorem assignRunningAux_range (chk : Checkpoint) (hi : String → Nat)
    (p : String) :
    ∀ (l : List Row) (cnt : String → Nat),
      ((assignRunningAux chk hi cnt l).filter
        (fun r => decide (r.program = p) && isNewRow chk r)).map
          (fun r => r.runningNumber) =
        List.range' (hi p + cnt p + 1)
          ((l.filter
            (fun r => decide (r.program = p) && isNewRow chk r)).length) := by
  intro l
  induction l with
  | nil => intro cnt; rfl
  | cons r t ih =>
    intro cnt
    by_cases hnew : isNewRow chk r = true
    · rw [assignRunningAux, if_pos hnew]
      dsimp only
      set r' : Row := { r with runningNumber := hi r.program + (cnt r.program + 1) } with hr'
      have hnew' : isNewRow chk r' = true := by
        rw [← isNewRow_congr (show r.thaiID = r'.thaiID from rfl) (show r.program = r'.program from rfl)]
        exact hnew
      by_cases hp : r.program = p
      · have hcond : (decide (r'.program = p) && isNewRow chk r') = true := by
          rw [hnew']
          show (decide (r.program = p) && true) = true
          simp [hp]
        have hcond2 : (decide (r.program = p) && isNewRow chk r) = true := by
          rw [hnew]
          simp [hp]
        rw [List.filter_cons_of_pos (p := fun x => decide (x.program = p) && isNewRow chk x) hcond, List.map_cons,
          List.filter_cons_of_pos (p := fun x => decide (x.program = p) && isNewRow chk x) hcond2, List.length_cons,
          List.range'_succ, ih (bumpCount cnt r.program (cnt r.program + 1))]
        have hb : bumpCount cnt r.program (cnt r.program + 1) p =
            cnt p + 1 := by
          unfold bumpCount
          rw [if_pos hp.symm, hp]
        rw [hb]
        have hhead : r'.runningNumber = hi p + cnt p + 1 := by
          show hi r.program + (cnt r.program + 1) = hi p + cnt p + 1
          rw [hp]
          omega
        rw [hhead]
        congr 1
      · have hcond : (decide (r'.program = p) && isNewRow chk r') = false := by
          show (decide (r.program = p) && isNewRow chk r') = false
          simp [hp]
        have hcond2 : (decide (r.program = p) && isNewRow chk r) = false := by
          simp [hp]
        rw [List.filter_cons_of_neg (p := fun x => decide (x.program = p) && isNewRow chk x) (by simp [hcond]),
          List.filter_cons_of_neg (p := fun x => decide (x.program = p) && isNewRow chk x) (by simp [hcond2]),
          ih (bumpCount cnt r.program (cnt r.program + 1))]
        have hb : bumpCount cnt r.program (cnt r.program + 1) p = cnt p := by
          unfold bumpCount
          rw [if_neg (fun he => hp he.symm)]
        rw [hb]
    · rw [assignRunningAux, if_neg hnew]
      have hcond : (decide (r.program = p) && isNewRow chk r) = false := by
        rw [show isNewRow chk r = false by simpa using hnew, Bool.and_false]
      rw [List.filter_cons_of_neg (p := fun x => decide (x.program = p) && isNewRow chk x) (by simp [hcond]),
        List.filter_cons_of_neg (p := fun x => decide (x.program = p) && isNewRow chk x) (by simp [hcond]), ih cnt]

/-! ### C6: sequence monotonicity -/

/-- Values of the new rows of program `p` in the final output equal the
corresponding values over the running-numbered stage: the room pass
preserves the filter condition and any `TRel`-invariant value. -/
theorem assign_news_map (cfg : Config) (chk : Checkpoint)
    (students : List Student) (p : String)
    {γ : Type} (F : Row → γ) (hF : ∀ a b : Row, TRel a b → F a = F b) :
    ((assign_exam_details cfg chk students).filter
      (fun r => decide (r.program = p) && isNewRow chk r)).map F =
    ((assignRunningAux chk (highestExamId cfg chk) (fun _ => 0)
        (List.insertionSort rowLe (students.map initRow))).filter
      (fun r => decide (r.program = p) && isNewRow chk r)).map
        (F ∘ (applyChk chk ∘ genIds cfg)) := by
  have hcondpres : ∀ a b : Row, TRel a b →
      (decide (a.program = p) && isNewRow chk a) =
      (decide (b.program = p) && isNewRow chk b) := by
    intro a b hab
    obtain ⟨⟨h1, h2, _, _, _, _⟩, _⟩ := hab
    rw [h2, isNewRow_congr h1.symm h2.symm]
  have h1 := forall₂_filter_map_eq hcondpres hF
    (assignRooms_rel cfg chk
      (((assignRunningAux chk (highestExamId cfg chk) (fun _ => 0)
        (List.insertionSort rowLe (students.map initRow))).map
          (genIds cfg)).map (applyChk chk)))
  rw [show assign_exam_details cfg chk students =
    assignRoomsByProgram cfg chk
      (((assignRunningAux chk (highestExamId cfg chk) (fun _ => 0)
        (List.insertionSort rowLe (students.map initRow))).map
          (genIds cfg)).map (applyChk chk)) from rfl]
  rw [← h1, List.map_map, List.filter_map, List.map_map]
  congr 1
  apply List.filter_congr
  intro r _
  have hid : (applyChk chk (genIds cfg r)).thaiID = r.thaiID := by
    rw [(applyChk_fields chk _).1, (genIds_fields cfg r).1]
  have hpr : (applyChk chk (genIds cfg r)).program = r.program := by
    rw [(applyChk_fields chk _).2.1, (genIds_fields cfg r).2.1]
  show (decide ((applyChk chk (genIds cfg r)).program = p) &&
    isNewRow chk (applyChk chk (genIds cfg r))) =
    (decide (r.program = p) && isNewRow chk r)
  rw [hpr, isNewRow_congr hid hpr]

/-- C6: within one run, the new running numbers of program `p` are
exactly `highest+1 .. highest+k` in output (sorted) order; each new
record's exam id is the configured prefix followed by the zero-padded
running number, so its numeric suffix parses back to that number; and
every parseable existing suffix in the checkpoint is at most `highest`.
Hence generated suffixes never repeat and never decrease across runs
persisted through the checkpoint. -/
theorem C6_sequence_monotonicity (cfg : Config) (chk : Checkpoint)
    (students : List Student) (p : String) :
    (((assign_exam_details cfg chk students).filter
        (fun r => decide (r.program = p) && isNewRow chk r)).map
          (fun r => r.runningNumber) =
      List.range' (highestExamId cfg chk p + 1)
        ((assign_exam_details cfg chk students).filter
          (fun r => decide (r.program = p) && isNewRow chk r)).length) ∧
    (∀ r ∈ assign_exam_details cfg chk students,
      r.program = p → isNewRow chk r = true →
      r.exam_id = prefixD cfg p ++ zfill3 (natStr r.runningNumber) ∧
      0 < r.runningNumber ∧
      strStartsWith r.exam_id (prefixD cfg p) = true ∧
      pyParseInt (strDrop r.exam_id (strLen (prefixD cfg p))) =
        some (Int.ofNat r.runningNumber)) ∧
    (∀ e ∈ chk, e.1.2 = p →
      ∀ pre, lookupA cfg.idPrefixes p = some pre →
      strStartsWith e.2.exam_id pre = true →
      ∀ n : Int, pyParseInt (strDrop e.2.exam_id (strLen pre)) = some n →
      n ≤ (highestExamId cfg chk p : Int)) := by
  -- shared facts about the running-numbered stage
  have hval : ∀ a b : Row, TRel a b → a.runningNumber = b.runningNumber :=
    fun a b hab => (hab.1.2.2.2.2.1).symm
  have htup : ∀ a b : Row, TRel a b →
      (a.runningNumber, a.exam_id) = (b.runningNumber, b.exam_id) := by
    intro a b hab
    obtain ⟨⟨_, _, _, _, h5, h6⟩, _⟩ := hab
    rw [h5, h6]
  have hrun := assign_news_map cfg chk students p
    (fun r => r.runningNumber) hval
  have hrange := assignRunningAux_range chk (highestExamId cfg chk) p
    (List.insertionSort rowLe (students.map initRow)) (fun _ => 0)
  have hgrun : ∀ r : Row,
      ((fun r : Row => r.runningNumber) ∘ (applyChk chk ∘ genIds cfg)) r =
        r.runningNumber := by
    intro r
    show (applyChk chk (genIds cfg r)).runningNumber = r.runningNumber
    rw [(applyChk_fields chk _).2.2.2.2, (genIds_fields cfg r).2.2.2.2]
  have hchain : ((assign_exam_details cfg chk students).filter
      (fun r => decide (r.program = p) && isNewRow chk r)).map
        (fun r => r.runningNumber) =
      List.range' (highestExamId cfg chk p + 0 + 1)
        ((List.insertionSort rowLe (students.map initRow) |>.filter
          (fun r => decide (r.program = p) && isNewRow chk r)).length) := by
    rw [hrun, List.map_congr_left (fun r _ => hgrun r), hrange]
  have hlen : ((assign_exam_details cfg chk students).filter
      (fun r => decide (r.program = p) && isNewRow chk r)).length =
      ((List.insertionSort rowLe (students.map initRow) |>.filter
        (fun r => decide (r.program = p) && isNewRow chk r)).length) := by
    rw [← List.length_map (((assign_exam_details cfg chk students).filter
      (fun r => decide (r.program = p) && isNewRow chk r)))
      (fun r => r.runningNumber), hchain, List.length_range']
  refine ⟨?_, ?_, ?_⟩
  · rw [hlen, hchain]
  · intro r hr hp hnew
    have hrf : r ∈ (assign_exam_details cfg chk students).filter
        (fun r => decide (r.program = p) && isNewRow chk r) := by
      rw [List.mem_filter]
      exact ⟨hr, by simp [hp, hnew]⟩
    have htupeq := assign_news_map cfg chk students p
      (fun r => (r.runningNumber, r.exam_id)) htup
    have hmem : (r.runningNumber, r.exam_id) ∈
        ((assignRunningAux chk (highestExamId cfg chk) (fun _ => 0)
          (List.insertionSort rowLe (students.map initRow))).filter
            (fun r => decide (r.program = p) && isNewRow chk r)).map
          ((fun r : Row => (r.runningNumber, r.exam_id)) ∘
            (applyChk chk ∘ genIds cfg)) := by
      rw [← htupeq]
      exact List.mem_map_of_mem _ hrf
    obtain ⟨r₂, hr₂f, hF⟩ := List.mem_map.mp hmem
    have hr₂fm := List.mem_filter.mp hr₂f
    have hp₂ : r₂.program = p := by
      have := hr₂fm.2
      simp only [Bool.and_eq_true, decide_eq_true_eq] at this
      exact this.1
    have hnew₂ : isNewRow chk r₂ = true := by
      have := hr₂fm.2
      simp only [Bool.and_eq_true, decide_eq_true_eq] at this
      exact this.2
    have hpos₂ : 0 < r₂.runningNumber :=
      assignRunningAux_pos chk (highestExamId cfg chk) (fun _ => 0)
        (List.insertionSort rowLe (students.map initRow)) r₂ hr₂fm.1 hnew₂
    have hnewg : isNewRow chk (genIds cfg r₂) = true := by
      rw [isNewRow_congr (genIds_fields cfg r₂).1 (genIds_fields cfg r₂).2.1]
      exact hnew₂
    have hgv : applyChk chk (genIds cfg r₂) =
        { r₂ with
          exam_id := prefixD cfg p ++ zfill3 (natStr r₂.runningNumber),
          exam_room := "", exam_no := 0,
          exam_building := UNSPEC, exam_floor := UNSPEC } := by
      rw [applyChk_of_isNew hnewg, genIds_of_pos hpos₂, hp₂]
    have hrun₂ : r₂.runningNumber = r.runningNumber := by
      have := congrArg Prod.fst hF
      simpa [hgv] using this
    have hid₂ : prefixD cfg p ++ zfill3 (natStr r₂.runningNumber) =
        r.exam_id := by
      have := congrArg Prod.snd hF
      simpa [hgv] using this
    refine ⟨?_, ?_, ?_, ?_⟩
    · rw [← hid₂, hrun₂]
    · rw [← hrun₂]
      exact hpos₂
    · rw [← hid₂]
      exact strStartsWith_append _ _
    · rw [← hid₂, ← hrun₂, strDrop_append]
      exact parse_zfill3_natStr _
  · intro e he hp' pre hpre hsw n hparse
    have h1 : n.toNat ≤ highestExamId cfg chk p :=
      foldl_hstep_elt cfg p chk 0 e he hp' pre hpre hsw n hparse
    calc n ≤ (n.toNat : Int) := Int.self_le_toNat n
      _ ≤ (highestExamId cfg chk p : Int) := by exact_mod_cast h1

/-- Witness for C6: against a checkpoint whose highest suffix for
"test-program" is 5, the new record gets running number 6 and exam id
"99006" = "99" ++ "006", and the stored suffix 5 is at most the
computed highest. -/
theorem C6_sequence_monotonicity_witness :
    rowC6.exam_id = prefixD cfgT "test-program" ++
      zfill3 (natStr rowC6.runningNumber) ∧
    0 < rowC6.runningNumber ∧
    (5 : Int) ≤ (highestExamId cfgT chkC6 "test-program" : Int) := by
  have h2 := (C6_sequence_monotonicity cfgT chkC6 studC6 "test-program").2.1
    rowC6 (by decide) (by decide) (by decide)
  have h3 := (C6_sequence_monotonicity cfgT chkC6 studC6 "test-program").2.2
    (("9", "test-program"), ⟨"99005", "TestRoom", 5, "B", "F"⟩)
    (by decide) (by decide) "99" (by decide) (by decide) 5 (by decide)
  exact ⟨h2.1, h2.2.1, h3⟩

/-! ### C4: capacity overflow -/

/-- C4 (code bug): program "test-program" has a single room of capacity
2 and three to-seat records against an empty checkpoint.  The claim
(and the spec) say the two within-capacity records get room "TestRoom"
seats 1-2 and only the third stays unassigned.  The code instead builds
only 2 room/seat pairs for 3 unassigned rows, the bulk
`df.loc[indices, col] = values` raises pandas' length-mismatch
`ValueError`, the per-program `except` catches it, and *all three*
records come back with an empty room and seat 0 (exam ids, generated
before the room loop, are kept). -/
theorem C4_overflow_all_unassigned :
    (assign_exam_details cfgOver [] studsABC).map
        (fun r => (r.exam_id, r.exam_room, r.exam_no)) =
      [("99001", "", 0), ("99002", "", 0), ("99003", "", 0)] ∧
    (buildRoomSeats [] "test-program" [("TestRoom", 2)] 3).length = 2 := by
  constructor <;> decide

/-! ### C9: configuration-error isolation -/

theorem foldl_skip (f : List Row → String → List Row) (p : String)
    (hid : ∀ acc, f acc p = acc) :
    ∀ (l : List String) (acc : List Row),
      l.foldl f acc = (l.filter (fun q => q ≠ p)).foldl f acc := by
  intro l
  induction l with
  | nil => intro acc; rfl
  | cons q t ih =>
    intro acc
    by_cases hq : q = p
    · subst hq
      rw [List.foldl_cons, hid acc, List.filter_cons_of_neg (by simp), ih]
    · rw [List.foldl_cons, List.filter_cons_of_pos (by simpa using hq),
        List.foldl_cons, ih]

/-- C9 counterexample: program "px" has a room plan but *no* id-prefix
entry; the claim says its records are skipped.  Instead the record gets
exam id "001" (empty prefix + zero-padded running number) and room "R",
seat 1. -/
theorem C9_counterexample :
    lookupA cfgNoPre.idPrefixes "px" = none ∧
    (assign_exam_details cfgNoPre [] studNoPre).map
        (fun r => (r.exam_id, r.exam_room, r.exam_no)) =
      [("001", "R", 1)] := by
  constructor <;> decide

/-- C9 amended: a program `p` *missing its room plan* is skipped by the
room-assignment loop — its pass is the identity, its new records keep
an empty room and seat 0 (though they still receive a freshly generated
exam id) — and the run continues: the whole room-assignment stage
equals the fold over the remaining programs only.  (A missing id-prefix
entry does not skip the program, see the counterexample.) -/
theorem C9_missing_plan_skips (cfg : Config) (chk : Checkpoint)
    (students : List Student) (p : String)
    (hplan : lookupA cfg.exam_rooms p = none) :
    (∀ r ∈ assign_exam_details cfg chk students, r.program = p →
      isNewRow chk r = true →
      r.exam_room = "" ∧ r.exam_no = 0 ∧ 0 < r.runningNumber ∧
      r.exam_id = prefixD cfg p ++ zfill3 (natStr r.runningNumber)) ∧
    (∀ rows : List Row, passProgram cfg chk rows p = rows) ∧
    (∀ rows : List Row, assignRoomsByProgram cfg chk rows =
      ((uniqueFirst (rows.map (fun r => r.program))).filter
        (fun q => q ≠ p)).foldl (passProgram cfg chk) rows) := by
  refine ⟨?_, ?_, ?_⟩
  · intro r hr hp hnew
    have hout : assign_exam_details cfg chk students =
        assignRoomsByProgram cfg chk
          (((assignRunningAux chk (highestExamId cfg chk) (fun _ => 0)
            (List.insertionSort rowLe (students.map initRow))).map
              (genIds cfg)).map (applyChk chk)) := rfl
    rw [hout] at hr
    obtain ⟨r₀, hr₀mem, hrel₀⟩ :=
      forall₂_mem_right (assignRooms_relP cfg chk p hplan _) r hr
    have hp₀ : r₀.program = p := by
      rw [hrel₀.1.1.2.1] at hp
      exact hp
    have hrr₀ : r = r₀ := hrel₀.2 hp₀
    subst hrr₀
    obtain ⟨r₁, hr₁, hr₀eq⟩ := List.mem_map.mp hr₀mem
    obtain ⟨r₂, hr₂, hr₁eq⟩ := List.mem_map.mp hr₁
    -- keys agree along the stages
    have hkey₂ : r₂.thaiID = r.thaiID ∧ r₂.program = r.program := by
      constructor
      · rw [← hr₀eq, (applyChk_fields chk r₁).1, ← hr₁eq,
          (genIds_fields cfg r₂).1]
      · rw [← hr₀eq, (applyChk_fields chk r₁).2.1, ← hr₁eq,
          (genIds_fields cfg r₂).2.1]
    have hnew₂ : isNewRow chk r₂ = true := by
      rw [isNewRow_congr hkey₂.1 hkey₂.2]
      exact hnew
    have hnew₁ : isNewRow chk r₁ = true := by
      rw [← hr₁eq, isNewRow_congr (genIds_fields cfg r₂).1
        (genIds_fields cfg r₂).2.1]
      exact hnew₂
    have hpos₂ : 0 < r₂.runningNumber :=
      assignRunningAux_pos chk _ _ _ r₂ hr₂ hnew₂
    have hr₁val : r₁ =
        { r₂ with
          exam_id := prefixD cfg r₂.program ++ zfill3 (natStr r₂.runningNumber),
          exam_room := "", exam_no := 0,
          exam_building := UNSPEC, exam_floor := UNSPEC } := by
      rw [← hr₁eq]
      exact genIds_of_pos hpos₂
    have hr₀val : r = r₁ := by
      rw [← hr₀eq]
      exact applyChk_of_isNew hnew₁
    have hprog₂ : r₂.program = p := by rw [hkey₂.2, hp]
    have hrval : r =
        { r₂ with
          exam_id := prefixD cfg r₂.program ++ zfill3 (natStr r₂.runningNumber),
          exam_room := "", exam_no := 0,
          exam_building := UNSPEC, exam_floor := UNSPEC } :=
      hr₀val.trans hr₁val
    refine ⟨?_, ?_, ?_, ?_⟩
    · rw [hrval]
    · rw [hrval]
    · rw [hrval]
      exact hpos₂
    · rw [hrval]
      show prefixD cfg r₂.program ++ zfill3 (natStr r₂.runningNumber) =
        prefixD cfg p ++ zfill3 (natStr r₂.runningNumber)
      rw [hprog₂]
  · intro rows
    exact passProgram_of_no_plan cfg chk rows p hplan
  · intro rows
    unfold assignRoomsByProgram
    exact foldl_skip (passProgram cfg chk) p
      (fun acc => passProgram_of_no_plan cfg chk acc p hplan) _ rows

/-! ### C7: capacity bound — occupancy and counting lemmas -/

theorem genIds_room {cfg : Config} {r : Row} (h : r.exam_room = "") :
    (genIds cfg r).exam_room = "" := by
  unfold genIds
  split
  · rfl
  · exact h

theorem foldl_max_ge_init :
    ∀ (xs : List Int) (a : Int), a ≤ xs.foldl max a := by
  intro xs
  induction xs with
  | nil => intro a; exact le_refl a
  | cons b t ih =>
    intro a
    rw [List.foldl_cons]
    exact (le_max_left a b).trans (ih (max a b))

theorem foldl_max_ge_mem :
    ∀ (xs : List Int) (a x : Int), x ∈ xs → x ≤ xs.foldl max a := by
  intro xs
  induction xs with
  | nil => intro a x hx; cases hx
  | cons b t ih =>
    intro a x hx
    rw [List.foldl_cons]
    rcases List.mem_cons.mp hx with hx | hx
    · exact hx ▸ (le_max_right a b).trans (foldl_max_ge_init t (max a b))
    · exact ih (max a b) x hx

theorem roomHighest_ge {chk : Checkpoint} {p room : String} :
    ∀ x ∈ roomSeats chk p room, x ≤ roomHighest chk p room := by
  intro x hx
  unfold roomHighest
  cases hs : roomSeats chk p room with
  | nil => rw [hs] at hx; cases hx
  | cons s ss =>
    rw [hs] at hx
    rcases List.mem_cons.mp hx with hx | hx
    · exact hx ▸ foldl_max_ge_init ss s
    · exact foldl_max_ge_mem ss s x hx

theorem roomHighest_nonneg {chk : Checkpoint} {p room : String}
    (h : ∀ x ∈ roomSeats chk p room, 1 ≤ x) :
    0 ≤ roomHighest chk p room := by
  unfold roomHighest
  cases hs : roomSeats chk p room with
  | nil => exact le_refl 0
  | cons s ss =>
    have h1 : (1 : Int) ≤ s := h s (by rw [hs]; exact List.mem_cons_self s ss)
    calc (0 : Int) ≤ 1 := by norm_num
      _ ≤ s := h1
      _ ≤ ss.foldl max s := foldl_max_ge_init ss s

theorem nodup_bounded_length (l : List Int) (hnd : l.Nodup) (B : Int)
    (hb : ∀ x ∈ l, 1 ≤ x ∧ x ≤ B) : l.length ≤ B.toNat := by
  classical
  have h1 : l.toFinset.card = l.length := List.toFinset_card_of_nodup hnd
  have h2 : l.toFinset ⊆ Finset.Icc 1 B := by
    intro x hx
    rw [List.mem_toFinset] at hx
    rw [Finset.mem_Icc]
    exact hb x hx
  have h3 : l.toFinset.card ≤ (Finset.Icc (1 : Int) B).card :=
    Finset.card_le_card h2
  rw [h1, Int.card_Icc] at h3
  have h4 : (B + 1 - 1).toNat = B.toNat := by
    congr 1
    omega
  rw [h4] at h3
  exact h3

theorem filterMap_if {α β : Type} (P : α → Prop) [DecidablePred P]
    (v : α → β) :
    ∀ l : List α,
      l.filterMap (fun e => if P e then some (v e) else none) =
      (l.filter (fun e => decide (P e))).map v := by
  intro l
  induction l with
  | nil => rfl
  | cons a t ih =>
    by_cases ha : P a
    · rw [List.filterMap_cons, if_pos ha,
        List.filter_cons_of_pos (by simpa using ha), List.map_cons, ih]
    · rw [List.filterMap_cons, if_neg ha,
        List.filter_cons_of_neg (by simpa using ha), ih]

theorem roomSeats_length {chk : Checkpoint} {p room : String}
    (hroom : room ≠ "") :
    (roomSeats chk p room).length =
      (chk.filter (fun e => decide (e.1.2 = p) &&
        decide (e.2.exam_room = room))).length := by
  unfold roomSeats
  rw [filterMap_if
    (fun e => e.1.2 = p ∧ e.2.exam_room ≠ "" ∧ e.2.exam_room = room)
    (fun e => e.2.exam_no) chk]
  rw [List.length_map]
  congr 1
  apply List.filter_congr
  intro e _
  by_cases h1 : e.1.2 = p <;> by_cases h2 : e.2.exam_room = room
  · have h3 : e.2.exam_room ≠ "" := by rw [h2]; exact hroom
    simp [h1, h2, h3, hroom]
  · simp [h1, h2]
  · simp [h1]
  · simp [h1]

theorem buildRoomSeats_zero (chk : Checkpoint) (p : String)
    (plan : List (String × Int)) : buildRoomSeats chk p plan 0 = [] := by
  cases plan with
  | nil => rfl
  | cons e rest =>
    obtain ⟨rm, c⟩ := e
    rfl

theorem buildRoomSeats_cons (chk : Checkpoint) (p rm : String) (c : Int)
    (rest : List (String × Int)) (k : Nat) :
    buildRoomSeats chk p ((rm, c) :: rest) (k + 1) =
      if (c - roomHighest chk p rm : Int) ≤ 0 then
        buildRoomSeats chk p rest (k + 1)
      else
        ((List.range (min (c - roomHighest chk p rm).toNat (k + 1))).map
          (fun i => (rm, roomHighest chk p rm + 1 + Int.ofNat i))) ++
          buildRoomSeats chk p rest
            ((k + 1) - min (c - roomHighest chk p rm).toNat (k + 1)) := by
  rfl

theorem buildRoomSeats_notmem (chk : Checkpoint) (p room : String) :
    ∀ (plan : List (String × Int)), room ∉ plan.map Prod.fst →
      ∀ (n : Nat) (pr : String × Int),
        pr ∈ buildRoomSeats chk p plan n → pr.1 ≠ room := by
  intro plan
  induction plan with
  | nil =>
    intro _ n pr hpr
    rw [show buildRoomSeats chk p [] n = [] from by cases n <;> rfl] at hpr
    cases hpr
  | cons e rest ih =>
    obtain ⟨rm, c⟩ := e
    intro hnm n pr hpr
    have hrm : rm ≠ room := by
      intro h
      exact hnm (by rw [← h]; exact List.mem_cons_self _ _)
    have hnm' : room ∉ rest.map Prod.fst := by
      intro h
      exact hnm (List.mem_cons_of_mem _ h)
    cases n with
    | zero =>
      rw [buildRoomSeats_zero] at hpr
      cases hpr
    | succ k =>
      rw [buildRoomSeats_cons] at hpr
      by_cases hrem : (c - roomHighest chk p rm : Int) ≤ 0
      · rw [if_pos hrem] at hpr
        exact ih hnm' _ pr hpr
      · rw [if_neg hrem] at hpr
        rcases List.mem_append.mp hpr with hpr | hpr
        · obtain ⟨i, _, hi⟩ := List.mem_map.mp hpr
          rw [← hi]
          exact hrm
        · exact ih hnm' _ pr hpr

theorem buildRoomSeats_count (chk : Checkpoint) (p room : String)
    (cap : Int) :
    ∀ (plan : List (String × Int)), (room, cap) ∈ plan →
      (plan.map Prod.fst).Nodup → ∀ n : Nat,
      ((buildRoomSeats chk p plan n).filter
        (fun pr => decide (pr.1 = room))).length ≤
        (cap - roomHighest chk p room).toNat := by
  intro plan
  induction plan with
  | nil => intro hmem; cases hmem
  | cons e rest ih =>
    obtain ⟨rm, c⟩ := e
    intro hmem hnd n
    rcases List.mem_cons.mp hmem with hmem | hmem
    · injection hmem with h1 h2
      subst h1
      subst h2
      have hnotin : room ∉ rest.map Prod.fst :=
        (List.nodup_cons.mp (by simpa using hnd)).1
      cases n with
      | zero =>
        rw [buildRoomSeats_zero]
        simp
      | succ k =>
        rw [buildRoomSeats_cons]
        by_cases hrem : (cap - roomHighest chk p room : Int) ≤ 0
        · rw [if_pos hrem]
          have h0 : (buildRoomSeats chk p rest (k + 1)).filter
              (fun pr => decide (pr.1 = room)) = [] := by
            rw [List.filter_eq_nil]
            intro a ha
            simpa using buildRoomSeats_notmem chk p room rest hnotin
              (k + 1) a ha
          rw [h0]
          simp
        · rw [if_neg hrem]
          rw [List.filter_append, List.length_append]
          have hsecond : (buildRoomSeats chk p rest
              ((k + 1) - min (cap - roomHighest chk p room).toNat (k + 1))).filter
                (fun pr => decide (pr.1 = room)) = [] := by
            rw [List.filter_eq_nil]
            intro a ha
            simpa using buildRoomSeats_notmem chk p room rest hnotin _ a ha
          rw [hsecond]
          have hfirst : (((List.range (min (cap - roomHighest chk p room).toNat
              (k + 1))).map (fun i => (room, roomHighest chk p room + 1 +
                Int.ofNat i))).filter (fun pr => decide (pr.1 = room))).length ≤
              (cap - roomHighest chk p room).toNat := by
            have hle1 := List.length_filter_le (fun pr : String × Int =>
              decide (pr.1 = room)) ((List.range (min (cap - roomHighest chk
                p room).toNat (k + 1))).map (fun i => (room,
                  roomHighest chk p room + 1 + Int.ofNat i)))
            rw [List.length_map, List.length_range] at hle1
            exact hle1.trans (Nat.min_le_left _ _)
          simpa using hfirst
    · have hrm : rm ≠ room := by
        intro h
        have hin : room ∈ rest.map Prod.fst :=
          List.mem_map_of_mem Prod.fst hmem
        have hh : rm ∉ rest.map Prod.fst :=
          (List.nodup_cons.mp (by simpa using hnd)).1
        rw [h] at hh
        exact hh hin
      have hnd' : (rest.map Prod.fst).Nodup :=
        (List.nodup_cons.mp (by simpa using hnd)).2
      cases n with
      | zero =>
        rw [buildRoomSeats_zero]
        simp
      | succ k =>
        rw [buildRoomSeats_cons]
        by_cases hrem : (c - roomHighest chk p rm : Int) ≤ 0
        · rw [if_pos hrem]
          exact ih hmem hnd' _
        · rw [if_neg hrem]
          rw [List.filter_append, List.length_append]
          have hfirst : ((List.range (min (c - roomHighest chk p rm).toNat
              (k + 1))).map (fun i => (rm, roomHighest chk p rm + 1 +
                Int.ofNat i))).filter (fun pr => decide (pr.1 = room)) = [] := by
            rw [List.filter_eq_nil]
            intro a ha
            obtain ⟨i, _, hi⟩ := List.mem_map.mp ha
            simp only [decide_eq_true_eq]
            rw [← hi]
            exact hrm
          rw [hfirst]
          simpa using ih hmem hnd' _

theorem buildRoomSeats_skip (chk : Checkpoint) (p room : String)
    (cap : Int) :
    ∀ (plan : List (String × Int)), (room, cap) ∈ plan →
      (plan.map Prod.fst).Nodup → cap ≤ roomHighest chk p room →
      ∀ (n : Nat) (pr : String × Int),
        pr ∈ buildRoomSeats chk p plan n → pr.1 ≠ room := by
  intro plan
  induction plan with
  | nil => intro hmem; cases hmem
  | cons e rest ih =>
    obtain ⟨rm, c⟩ := e
    intro hmem hnd hle n pr hpr
    rcases List.mem_cons.mp hmem with hmem | hmem
    · injection hmem with h1 h2
      subst h1
      subst h2
      have hnotin : room ∉ rest.map Prod.fst :=
        (List.nodup_cons.mp (by simpa using hnd)).1
      cases n with
      | zero =>
        rw [buildRoomSeats_zero] at hpr
        cases hpr
      | succ k =>
        rw [buildRoomSeats_cons] at hpr
        rw [if_pos (by omega : (cap - roomHighest chk p room : Int) ≤ 0)] at hpr
        exact buildRoomSeats_notmem chk p room rest hnotin _ pr hpr
    · have hrm : rm ≠ room := by
        intro h
        have hin : room ∈ rest.map Prod.fst :=
          List.mem_map_of_mem Prod.fst hmem
        have hh : rm ∉ rest.map Prod.fst :=
          (List.nodup_cons.mp (by simpa using hnd)).1
        rw [h] at hh
        exact hh hin
      have hnd' : (rest.map Prod.fst).Nodup :=
        (List.nodup_cons.mp (by simpa using hnd)).2
      cases n with
      | zero =>
        rw [buildRoomSeats_zero] at hpr
        cases hpr
      | succ k =>
        rw [buildRoomSeats_cons] at hpr
        by_cases hrem : (c - roomHighest chk p rm : Int) ≤ 0
        · rw [if_pos hrem] at hpr
          exact ih hmem hnd' hle _ pr hpr
        · rw [if_neg hrem] at hpr
          rcases List.mem_append.mp hpr with hpr | hpr
          · obtain ⟨i, _, hi⟩ := List.mem_map.mp hpr
            rw [← hi]
            exact hrm
          · exact ih hmem hnd' hle _ pr hpr

/-- Witness for C9 amended at a concrete run: program "px" has a
prefix but no room plan; its record keeps an empty room/zero seat and
exam id "55001", while program "q" is still seated. -/
theorem C9_missing_plan_skips_witness :
    rowPx.exam_room = "" ∧ rowPx.exam_no = 0 ∧ 0 < rowPx.runningNumber ∧
    rowPx.exam_id = prefixD cfgOnlyQ "px" ++ zfill3 (natStr rowPx.runningNumber) := by
  have h := (C9_missing_plan_skips cfgOnlyQ [] studsPQ "px" (by decide)).1
    rowPx (by decide) (by decide) (by decide)
  exact h

/-! ### C7: capacity bound — counting through the pipeline -/

theorem assign_eq_applied (cfg : Config) (chk : Checkpoint)
    (students : List Student) :
    assign_exam_details cfg chk students =
      assignRoomsByProgram cfg chk (appliedRows cfg chk students) := rfl

theorem uniqueFirst_nodup : ∀ l : List String, (uniqueFirst l).Nodup := by
  intro l
  induction l with
  | nil => exact List.nodup_nil
  | cons x xs ih =>
    rw [uniqueFirst]
    refine List.nodup_cons.mpr ⟨?_, ih.filter _⟩
    intro hx
    have h := List.of_mem_filter hx
    simp at h

theorem nodup_keys_le_filter {A : List (String × String)} {chk : Checkpoint}
    {P : (String × String) × SeatAssignment → Bool} (hA : A.Nodup)
    (h : ∀ k ∈ A, ∃ e ∈ chk, e.1 = k ∧ P e = true) :
    A.length ≤ (chk.filter P).length := by
  classical
  have hsub : A.toFinset ⊆ ((chk.filter P).map Prod.fst).toFinset := by
    intro k hk
    rw [List.mem_toFinset] at hk
    rw [List.mem_toFinset]
    obtain ⟨e, he, hek, hPe⟩ := h k hk
    exact List.mem_map.mpr ⟨e, List.mem_filter.mpr ⟨he, hPe⟩, hek⟩
  have h1 := Finset.card_le_card hsub
  rw [List.toFinset_card_of_nodup hA] at h1
  calc A.length ≤ ((chk.filter P).map Prod.fst).toFinset.card := h1
    _ ≤ ((chk.filter P).map Prod.fst).length := List.toFinset_card_le _
    _ = (chk.filter P).length := List.length_map _ _

theorem sorted_mem_room {students : List Student} {r : Row}
    (hr : r ∈ List.insertionSort rowLe (students.map initRow)) :
    r.exam_room = "" := by
  have hmem : r ∈ students.map initRow :=
    (List.perm_insertionSort rowLe (students.map initRow)).mem_iff.mp hr
  obtain ⟨s, _, hs⟩ := List.mem_map.mp hmem
  rw [← hs]
  rfl

theorem numbered_room {chk : Checkpoint} {hi cnt : String → Nat}
    {l : List Row} (hl : ∀ r ∈ l, r.exam_room = "") :
    ∀ r ∈ assignRunningAux chk hi cnt l, r.exam_room = "" := by
  intro r hr
  obtain ⟨a, ha, hab⟩ :=
    forall₂_mem_right (assignRunningAux_runRel chk hi cnt l) r hr
  have h := (runRel_fields hab).2.2.2.2.2.1
  rw [h]
  exact hl a ha

theorem withIds_keys (cfg : Config) (chk : Checkpoint)
    (students : List Student) :
    List.Perm (((assignRunningAux chk (highestExamId cfg chk) (fun _ => 0)
        (List.insertionSort rowLe (students.map initRow))).map
      (genIds cfg)).map rowPKey) (students.map studKey) := by
  have h1 : ((assignRunningAux chk (highestExamId cfg chk) (fun _ => 0)
      (List.insertionSort rowLe (students.map initRow))).map
    (genIds cfg)).map rowPKey =
      (assignRunningAux chk (highestExamId cfg chk) (fun _ => 0)
        (List.insertionSort rowLe (students.map initRow))).map rowPKey := by
    rw [List.map_map]
    apply List.map_congr_left
    intro r _
    show rowPKey (genIds cfg r) = rowPKey r
    have h := genIds_fields cfg r
    unfold rowPKey
    rw [h.1, h.2.1]
  have h2 : (List.insertionSort rowLe (students.map initRow)).map rowPKey =
      (assignRunningAux chk (highestExamId cfg chk) (fun _ => 0)
        (List.insertionSort rowLe (students.map initRow))).map rowPKey := by
    refine forall₂_map_eq ?_ (assignRunningAux_runRel chk _ _ _)
    intro a b hab
    have h := runRel_fields hab
    unfold rowPKey
    rw [h.1, h.2.1]
  have h3 : List.Perm ((List.insertionSort rowLe
      (students.map initRow)).map rowPKey)
      ((students.map initRow).map rowPKey) :=
    (List.perm_insertionSort rowLe (students.map initRow)).map rowPKey
  have h4 : (students.map initRow).map rowPKey = students.map studKey := by
    rw [List.map_map]
    exact List.map_congr_left fun s _ => rfl
  rw [h1, ← h2, ← h4]
  exact h3

theorem withIds_keys_nodup (cfg : Config) (chk : Checkpoint)
    {students : List Student} (hkeys : (students.map studKey).Nodup) :
    (((assignRunningAux chk (highestExamId cfg chk) (fun _ => 0)
        (List.insertionSort rowLe (students.map initRow))).map
      (genIds cfg)).map rowPKey).Nodup :=
  (withIds_keys cfg chk students).symm.nodup hkeys

theorem count_room_le_chk (chk : Checkpoint) {p room : String}
    (hroom : room ≠ "") (l : List Row)
    (hnd : (l.map rowPKey).Nodup) (hr0 : ∀ w ∈ l, w.exam_room = "") :
    (l.map (applyChk chk)).countP
      (fun r => decide (r.program = p) && decide (r.exam_room = room)) ≤
      (roomSeats chk p room).length := by
  classical
  rw [List.countP_eq_length_filter, roomSeats_length hroom, List.filter_map,
    List.length_map]
  have hnd2 : ((l.filter ((fun r => decide (r.program = p) &&
      decide (r.exam_room = room)) ∘ applyChk chk)).map rowPKey).Nodup :=
    hnd.sublist ((List.filter_sublist l).map rowPKey)
  have hmem2 : ∀ k ∈ (l.filter ((fun r => decide (r.program = p) &&
      decide (r.exam_room = room)) ∘ applyChk chk)).map rowPKey,
      ∃ e ∈ chk, e.1 = k ∧
        (decide (e.1.2 = p) && decide (e.2.exam_room = room)) = true := by
    intro k hk
    obtain ⟨w, hw, hwk⟩ := List.mem_map.mp hk
    have hwf := List.mem_filter.mp hw
    have hQ : (decide ((applyChk chk w).program = p) &&
        decide ((applyChk chk w).exam_room = room)) = true := by
      simpa [Function.comp] using hwf.2
    rw [Bool.and_eq_true, decide_eq_true_eq, decide_eq_true_eq] at hQ
    obtain ⟨hp1, hr1⟩ := hQ
    have hwroom := hr0 w hwf.1
    cases hl : lookupA chk (w.thaiID, w.program) with
    | none =>
      exfalso
      have heq : applyChk chk w = w := by unfold applyChk; rw [hl]
      rw [heq, hwroom] at hr1
      exact hroom hr1.symm
    | some a =>
      refine ⟨((w.thaiID, w.program), a), lookupA_mem hl, hwk, ?_⟩
      have hwp : w.program = p := by
        rw [applyChk_of_lookup hl] at hp1
        exact hp1
      have har : a.exam_room = room := by
        rw [applyChk_of_lookup hl] at hr1
        exact hr1
      simp [hwp, har]
  have h := nodup_keys_le_filter hnd2 hmem2
  rw [List.length_map] at h
  exact h

theorem applied_count_le (cfg : Config) (chk : Checkpoint)
    {students : List Student} {p room : String} (hroom : room ≠ "")
    (hkeys : (students.map studKey).Nodup) :
    (appliedRows cfg chk students).countP
      (fun r => decide (r.program = p) && decide (r.exam_room = room)) ≤
      (roomSeats chk p room).length := by
  unfold appliedRows
  refine count_room_le_chk chk hroom _ ?_ ?_
  · exact withIds_keys_nodup cfg chk hkeys
  · intro w hw
    obtain ⟨u, hu, huw⟩ := List.mem_map.mp hw
    have hu0 : u.exam_room = "" :=
      numbered_room (fun r hr => sorted_mem_room hr) u hu
    rw [← huw]
    exact genIds_room hu0

theorem applySeats_count (cfg : Config) (p room : String)
    (hroom : room ≠ "") :
    ∀ (rows : List Row) (pairs : List (String × Int)),
      (applySeats cfg p rows pairs).countP
        (fun r => decide (r.program = p) && decide (r.exam_room = room)) ≤
      rows.countP
        (fun r => decide (r.program = p) && decide (r.exam_room = room)) +
        pairs.countP (fun pr => decide (pr.1 = room)) := by
  intro rows
  induction rows with
  | nil =>
    intro pairs
    rw [show applySeats cfg p [] pairs = [] from by cases pairs <;> rfl]
    simp
  | cons r rs ih =>
    intro pairs
    cases pairs with
    | nil =>
      rw [show applySeats cfg p (r :: rs) [] = r :: rs from rfl]
      exact Nat.le_add_right _ _
    | cons e tl =>
      obtain ⟨rm, no⟩ := e
      rw [applySeats]
      by_cases hc : r.program = p ∧ r.exam_room = ""
      · rw [if_pos hc]
        have hne : r.exam_room ≠ room := by
          rw [hc.2]; exact fun h => hroom h.symm
        have h1 := ih tl
        simp only [List.countP_cons]
        dsimp only
        by_cases hrm : rm = room
        · simp only [hc.1, hrm, hne]
          simp
          omega
        · simp only [hc.1, hrm, hne]
          simp [hrm, hne]
          omega
      · rw [if_neg hc]
        have h1 := ih ((rm, no) :: tl)
        simp only [List.countP_cons]
        simp only [List.countP_cons] at h1
        omega

theorem applySeats_countP_other (cfg : Config) {p q : String} (hpq : q ≠ p)
    (room : String) :
    ∀ (rows : List Row) (pairs : List (String × Int)),
      (applySeats cfg q rows pairs).countP
        (fun r => decide (r.program = p) && decide (r.exam_room = room)) =
      rows.countP
        (fun r => decide (r.program = p) && decide (r.exam_room = room)) := by
  intro rows
  induction rows with
  | nil =>
    intro pairs
    rw [show applySeats cfg q [] pairs = [] from by cases pairs <;> rfl]
  | cons r rs ih =>
    intro pairs
    cases pairs with
    | nil => rfl
    | cons e tl =>
      obtain ⟨rm, no⟩ := e
      rw [applySeats]
      by_cases hc : r.program = q ∧ r.exam_room = ""
      · rw [if_pos hc]
        have hrp : ¬ (r.program = p) := by rw [hc.1]; exact hpq
        simp only [List.countP_cons]
        dsimp only
        simp [hrp, ih tl]
      · rw [if_neg hc]
        simp only [List.countP_cons]
        rw [ih ((rm, no) :: tl)]

theorem passProgram_countP_other (cfg : Config) (chk : Checkpoint)
    {p q : String} (hpq : q ≠ p) (room : String) (rows : List Row) :
    (passProgram cfg chk rows q).countP
      (fun r => decide (r.program = p) && decide (r.exam_room = room)) =
    rows.countP
      (fun r => decide (r.program = p) && decide (r.exam_room = room)) := by
  unfold passProgram
  dsimp only
  split
  · rfl
  · cases hq : lookupA cfg.exam_rooms q with
    | none => rfl
    | some plan =>
      dsimp only
      split
      · exact applySeats_countP_other cfg hpq room rows _
      · rfl

theorem passProgram_countP_self (cfg : Config) (chk : Checkpoint)
    {p room : String} {plan : List (String × Int)} {cap : Int}
    (hplan : lookupA cfg.exam_rooms p = some plan)
    (hmem : (room, cap) ∈ plan) (hnd : (plan.map Prod.fst).Nodup)
    (hroom : room ≠ "") (rows : List Row) :
    (passProgram cfg chk rows p).countP
      (fun r => decide (r.program = p) && decide (r.exam_room = room)) ≤
    rows.countP
      (fun r => decide (r.program = p) && decide (r.exam_room = room)) +
      (cap - roomHighest chk p room).toNat := by
  unfold passProgram
  dsimp only
  split
  · exact Nat.le_add_right _ _
  · rw [hplan]
    dsimp only
    split
    · refine le_trans (applySeats_count cfg p room hroom rows _) ?_
      have h3 : ∀ n : Nat, (buildRoomSeats chk p plan n).countP
          (fun pr => decide (pr.1 = room)) ≤
          (cap - roomHighest chk p room).toNat := by
        intro n
        rw [List.countP_eq_length_filter]
        exact buildRoomSeats_count chk p room cap plan hmem hnd n
      exact Nat.add_le_add_left (h3 _) _
    · exact Nat.le_add_right _ _

theorem foldl_pass_countP_notin (cfg : Config) (chk : Checkpoint)
    {p : String} (room : String) :
    ∀ (L : List String), p ∉ L → ∀ rows : List Row,
      (L.foldl (passProgram cfg chk) rows).countP
        (fun r => decide (r.program = p) && decide (r.exam_room = room)) =
      rows.countP
        (fun r => decide (r.program = p) && decide (r.exam_room = room)) := by
  intro L
  induction L with
  | nil => intro _ rows; rfl
  | cons q t ih =>
    intro hp rows
    rw [List.foldl_cons]
    have hqp : q ≠ p := fun h => hp (h ▸ List.mem_cons_self _ _)
    rw [ih (fun h => hp (List.mem_cons_of_mem _ h)) _]
    exact passProgram_countP_other cfg chk hqp room rows

theorem foldl_pass_countP (cfg : Config) (chk : Checkpoint)
    {p room : String} {plan : List (String × Int)} {cap : Int}
    (hplan : lookupA cfg.exam_rooms p = some plan)
    (hmem : (room, cap) ∈ plan) (hnd : (plan.map Prod.fst).Nodup)
    (hroom : room ≠ "") :
    ∀ (L : List String), L.Nodup → ∀ rows : List Row,
      (L.foldl (passProgram cfg chk) rows).countP
        (fun r => decide (r.program = p) && decide (r.exam_room = room)) ≤
      rows.countP
        (fun r => decide (r.program = p) && decide (r.exam_room = room)) +
        (cap - roomHighest chk p room).toNat := by
  intro L
  induction L with
  | nil => intro _ rows; exact Nat.le_add_right _ _
  | cons q t ih =>
    intro hnd2 rows
    rw [List.foldl_cons]
    by_cases hqp : q = p
    · subst hqp
      have hqt : q ∉ t := (List.nodup_cons.mp hnd2).1
      rw [foldl_pass_countP_notin cfg chk room t hqt _]
      exact passProgram_countP_self cfg chk hplan hmem hnd hroom rows
    · have h1 := ih (List.nodup_cons.mp hnd2).2 (passProgram cfg chk rows q)
      rw [passProgram_countP_other cfg chk hqp room rows] at h1
      exact h1

/-- C7: capacity bound.  For a program `p` whose room plan names `room`
with capacity `cap` (room names in the plan distinct, `room` non-empty),
and a checkpoint whose recorded seat numbers for that room are distinct
whole numbers between 1 and `cap` — the invariant every well-formed run
maintains — the output of `assign_exam_details` contains at most
`cap` records of program `p` placed in `room` (checkpointed plus newly
assigned); and when the remaining capacity `cap - highest` is `<= 0`
the room-filling loop produces no pair for that room at all, so the
room is skipped without receiving any new assignment. -/
theorem C7_capacity_bound (cfg : Config) (chk : Checkpoint)
    (students : List Student) (p room : String) (cap : Int)
    (plan : List (String × Int))
    (hplan : lookupA cfg.exam_rooms p = some plan)
    (hmem : (room, cap) ∈ plan)
    (hnd : (plan.map Prod.fst).Nodup)
    (hroom : room ≠ "")
    (hkeys : (students.map studKey).Nodup)
    (hseats : (roomSeats chk p room).Nodup)
    (hbound : ∀ x ∈ roomSeats chk p room, 1 ≤ x ∧ x ≤ cap) :
    ((assign_exam_details cfg chk students).filter
      (fun r => decide (r.program = p) && decide (r.exam_room = room))).length
      ≤ cap.toNat ∧
    (cap ≤ roomHighest chk p room →
      ∀ (n : Nat) (pr : String × Int),
        pr ∈ buildRoomSeats chk p plan n → pr.1 ≠ room) := by
  constructor
  · rw [← List.countP_eq_length_filter]
    rw [assign_eq_applied]
    unfold assignRoomsByProgram
    have hfold := foldl_pass_countP cfg chk hplan hmem hnd hroom
      (uniqueFirst ((appliedRows cfg chk students).map (fun r => r.program)))
      (uniqueFirst_nodup _) (appliedRows cfg chk students)
    have happ : (appliedRows cfg chk students).countP
        (fun r => decide (r.program = p) && decide (r.exam_room = room)) ≤
        (roomSeats chk p room).length := applied_count_le cfg chk hroom hkeys
    have hS1 : (roomSeats chk p room).length ≤
        (roomHighest chk p room).toNat :=
      nodup_bounded_length _ hseats _
        (fun x hx => ⟨(hbound x hx).1, roomHighest_ge x hx⟩)
    have hS2 : (roomSeats chk p room).length ≤ cap.toNat :=
      nodup_bounded_length _ hseats _ (fun x hx => hbound x hx)
    have hH : 0 ≤ roomHighest chk p room :=
      roomHighest_nonneg (fun x hx => (hbound x hx).1)
    omega
  · intro hle n pr hpr
    exact buildRoomSeats_skip chk p room cap plan hmem hnd hle n pr hpr

/-- Witness for C7 at a concrete run: three applicants of program "P"
against a single room "R" of capacity 2 and an empty checkpoint; at
most two output records are placed in "R". -/
theorem C7_capacity_bound_witness :
    (lookupA cfgC7.exam_rooms "P" = some [("R", 2)] ∧
     ("R", (2 : Int)) ∈ [("R", (2 : Int))] ∧
     (([("R", (2 : Int))].map Prod.fst).Nodup) ∧
     "R" ≠ "" ∧ (studsC7.map studKey).Nodup ∧
     (roomSeats [] "P" "R").Nodup ∧
     (∀ x ∈ roomSeats [] "P" "R", 1 ≤ x ∧ x ≤ 2)) ∧
    ((assign_exam_details cfgC7 [] studsC7).filter
      (fun r => decide (r.program = "P") && decide (r.exam_room = "R"))).length
      ≤ (2 : Int).toNat := by
  refine ⟨⟨?_, ?_, ?_, ?_, ?_, ?_, ?_⟩, ?_⟩
  · decide
  · decide
  · decide
  · decide
  · decide
  · decide
  · decide
  · exact (C7_capacity_bound cfgC7 [] studsC7 "P" "R" 2 [("R", 2)]
      (by decide) (by decide) (by decide) (by decide) (by decide)
      (by decide) (by decide)).1

end ExamRoom
